import Mathlib

/-!
Verification development for the business-management-stock repository.

The repository is a Python ETL system that synchronizes a product catalog
between a source API, PostgreSQL and a Qdrant vector index.  This file gives
a shallow embedding of the data model and of the operations referenced by the
specification, translated from the Python sources:

* `src/models/product.py`        — `ProductDB.compute_text_hash`
* `src/transformers/normalizers.py` — `ProductNormalizer`
* `src/transformers/validators.py`  — `ProductValidator`
* `src/transformers/cleaners.py`    — `TextCleaner.clean_batch`
* `src/embeddings/generator.py`     — `EmbeddingGenerator`
* `src/loaders/qdrant_loader.py`    — `QdrantLoader.update_metadata(_batch)`
* `src/pipelines/api_to_postgres.py` and `src/pipelines/postgres_to_qdrant.py`

Python dictionaries are modelled as association lists with unique keys
(`PRecord`), Python values as the inductive `PyVal`, Python `Decimal` and
`float` amounts as exact rationals, and machine-level effects (HTTP calls,
database clients) as explicit oracle functions passed to the pipeline
functions.  Wall-clock timestamps and logging output are not modelled.
-/

namespace BMS

/-- Shallow embedding of the Python values that flow through the ETL
records: `None`, `int`, `str`, `Decimal`/`float` (as exact rationals),
`dict` and `list`. -/
inductive PyVal where
  | vnone : PyVal
  | vint (n : Int) : PyVal
  | vstr (s : String) : PyVal
  | vdec (q : Rat) : PyVal
  | vdict (entries : List (String × PyVal)) : PyVal
  | vlist (items : List PyVal) : PyVal

mutual
/-- Equality test on Python values, modelling `==` on the embedded
fragment (used for dictionary key comparison). -/
def PyVal.beq : PyVal → PyVal → Bool
  | .vnone, .vnone => true
  | .vint a, .vint b => a == b
  | .vstr a, .vstr b => a == b
  | .vdec a, .vdec b => a == b
  | .vdict a, .vdict b => PyVal.beqEntries a b
  | .vlist a, .vlist b => PyVal.beqList a b
  | _, _ => false

/-- Entry-wise equality of embedded dictionaries. -/
def PyVal.beqEntries : List (String × PyVal) → List (String × PyVal) → Bool
  | [], [] => true
  | (k, v) :: r, (k', v') :: r' => k == k' && PyVal.beq v v' && PyVal.beqEntries r r'
  | _, _ => false

/-- Element-wise equality of embedded lists. -/
def PyVal.beqList : List PyVal → List PyVal → Bool
  | [], [] => true
  | v :: r, v' :: r' => PyVal.beq v v' && PyVal.beqList r r'
  | _, _ => false
end
end BMS

mutual
theorem BMS.PyVal.beq_refl : ∀ v : BMS.PyVal, BMS.PyVal.beq v v = true
  | .vnone => rfl
  | .vint _ => by simp [BMS.PyVal.beq]
  | .vstr _ => by simp [BMS.PyVal.beq]
  | .vdec _ => by simp [BMS.PyVal.beq]
  | .vdict a => by simp [BMS.PyVal.beq, BMS.PyVal.beqEntries_refl a]
  | .vlist a => by simp [BMS.PyVal.beq, BMS.PyVal.beqList_refl a]

theorem BMS.PyVal.beqEntries_refl :
    ∀ l : List (String × BMS.PyVal), BMS.PyVal.beqEntries l l = true
  | [] => rfl
  | (k, v) :: r => by
      simp [BMS.PyVal.beqEntries, BMS.PyVal.beq_refl v, BMS.PyVal.beqEntries_refl r]

theorem BMS.PyVal.beqList_refl :
    ∀ l : List BMS.PyVal, BMS.PyVal.beqList l l = true
  | [] => rfl
  | v :: r => by
      simp [BMS.PyVal.beqList, BMS.PyVal.beq_refl v, BMS.PyVal.beqList_refl r]
end

namespace BMS

/-- Embedded Python dictionary with string keys, as an association list in
insertion order (CPython dictionaries preserve insertion order, and a key
occurs at most once). -/
abbrev PRecord : Type := List (String × PyVal)

/-- Dictionary read `d.get(k)`: `some v` when the key is present,
`none` when it is absent. -/
def getVal : PRecord → String → Option PyVal
  | [], _ => none
  | e :: rest, k => if e.1 = k then some e.2 else getVal rest k

/-- Dictionary write `d[k] = v`: an existing key keeps its value slot and
position (CPython semantics), a new key is appended at the end. -/
def setVal : PRecord → String → PyVal → PRecord
  | [], k, v => [(k, v)]
  | e :: rest, k, v => if e.1 = k then (k, v) :: rest else e :: setVal rest k v

theorem getVal_setVal (r : PRecord) (k q : String) (v : PyVal) :
    getVal (setVal r k v) q = if q = k then some v else getVal r q := by
  induction r with
  | nil =>
      by_cases h : q = k
      · simp [getVal, setVal, h]
      · have h' : ¬ k = q := fun hh => h hh.symm
        simp [getVal, setVal, h, h']
  | cons e rest ih =>
      by_cases hek : e.1 = k
      · by_cases hqk : q = k
        · simp [getVal, setVal, hek, hqk]
        · have h' : ¬ k = q := fun hh => hqk hh.symm
          simp [getVal, setVal, hek, hqk, h']
      · by_cases hqe : e.1 = q
        · have hqk : ¬ q = k := fun h => hek (hqe.trans h)
          simp [getVal, setVal, hek, hqe, hqk]
        · simp [getVal, setVal, hek, hqe, ih]

/-- Embedding of the SQLAlchemy model `ProductDB` (src/models/product.py).
The UUID primary key is abstracted as a string, `Decimal` prices as exact
rationals, and the JSON `attributes` column as an embedded dictionary. -/
structure ProductDB where
  id : String
  sku : String
  name : String
  description : Option String
  category : String
  price : Rat
  stock : Int
  unit : String
  attributes : List (String × PyVal)

/-- Insertion step of a stable sort of attribute entries by key, modelling
Python `sorted(attributes.items())` (keys are unique in a dict, so ordering
by key alone matches ordering by the full pair). -/
def insertSortedAttr (e : String × PyVal) : List (String × PyVal) → List (String × PyVal)
  | [] => [e]
  | f :: rest => if e.1 ≤ f.1 then e :: f :: rest else f :: insertSortedAttr e rest

/-- Stable sort of attribute entries by key, modelling
Python `sorted(attributes.items())`. -/
def sortAttrs (l : List (String × PyVal)) : List (String × PyVal) :=
  l.foldr insertSortedAttr []

/-- The exact string hashed by `ProductDB.compute_text_hash`
(src/models/product.py lines 74-90): `name|description|category`, and, when
the attributes dictionary is non-empty, a `|`-joined list of `key:value`
pairs of its string-valued entries in key-sorted order. -/
def compute_text_content (p : ProductDB) : String :=
  let base := p.name ++ "|" ++ (p.description.getD "") ++ "|" ++ p.category
  if p.attributes.isEmpty then base
  else
    let attr_text := String.intercalate "|"
      ((sortAttrs p.attributes).filterMap (fun kv =>
        match kv.2 with
        | PyVal.vstr s => some (kv.1 ++ ":" ++ s)
        | _ => none))
    base ++ "|" ++ attr_text

/-- Model of `ProductDB.compute_text_hash`.  The source returns
`hashlib.sha256(text_content.encode()).hexdigest()`; SHA-256 is a fixed
deterministic function of the content string, so it is modelled here by the
content string itself.  Every theorem below only ever concludes equality of
hashes from equality of contents (sound for any deterministic digest); no
statement assumes the digest is injective. -/
def compute_text_hash (p : ProductDB) : String :=
  compute_text_content p

/-- Model of `EmbeddingGenerator.should_regenerate`
(src/embeddings/generator.py lines 259-281): regenerate when no hash is
stored or the stored hash differs from the current one. -/
def should_regenerate (p : ProductDB) (existing_hash : Option String) : Bool :=
  match existing_hash with
  | none => true
  | some h => compute_text_hash p != h

/-- Condition under which the sync pipeline sends a product to the
embedding branch (src/pipelines/postgres_to_qdrant.py lines 116-128):
forced regeneration, or no stored hash for its sku, or a stored hash that
differs from the freshly computed one. -/
def needs_embedding (force : Bool) (hashes : String → Option String) (p : ProductDB) : Bool :=
  force ||
    match hashes p.sku with
    | none => true
    | some h => h != compute_text_hash p

/-- Classification loop of `PostgresToQdrantPipeline.run`
(src/pipelines/postgres_to_qdrant.py lines 112-128): each product is
appended to `products_to_embed` or to `products_metadata_only`. -/
def classify_products (force : Bool) (hashes : String → Option String) :
    List ProductDB → List ProductDB × List ProductDB
  | [] => ([], [])
  | p :: rest =>
    let r := classify_products force hashes rest
    if force || (hashes p.sku).isNone then (p :: r.1, r.2)
    else if hashes p.sku != some (compute_text_hash p) then (p :: r.1, r.2)
    else (r.1, p :: r.2)

/-- C1 (amended): the content hash is a function of name, description,
category and attributes only, hence invariant under arbitrary changes to
price or stock.  The further part of the original claim — that the hash
always changes when name, description, category or a string attribute
changes cannot hold: the hashed fields are joined with an unescaped `|`
separator, so distinct field values can produce the identical hashed
content (see the counterexample theorem). -/
theorem claim_c1_hash_invariant_under_price_stock
    (p1 p2 : ProductDB)
    (hn : p1.name = p2.name) (hd : p1.description = p2.description)
    (hc : p1.category = p2.category) (ha : p1.attributes = p2.attributes) :
    compute_text_hash p1 = compute_text_hash p2 := by
  unfold compute_text_hash compute_text_content
  rw [hn, hd, hc, ha]

/-- Witness product for C1: a product with some attributes. -/
def c1w1 : ProductDB :=
  { id := "1", sku := "S", name := "n", description := none, category := "c",
    price := 10, stock := 5, unit := "unidad",
    attributes := [("color", PyVal.vstr "rojo")] }

/-- Witness product for C1: same product with different price and stock. -/
def c1w2 : ProductDB := { c1w1 with price := 999, stock := 0 }

/-- Witness for C1: the two concrete products differing only in price and
stock have the same content hash. -/
theorem claim_c1_witness : compute_text_hash c1w1 = compute_text_hash c1w2 :=
  claim_c1_hash_invariant_under_price_stock c1w1 c1w2 rfl rfl rfl rfl

/-- Counterexample product for C1: name `a`, description `b|`. -/
def c1x1 : ProductDB :=
  { id := "1", sku := "S", name := "a", description := some "b|", category := "c",
    price := 10, stock := 5, unit := "unidad", attributes := [] }

/-- Counterexample product for C1: name `a|b`, no description. -/
def c1x2 : ProductDB :=
  { id := "1", sku := "S", name := "a|b", description := none, category := "c",
    price := 10, stock := 5, unit := "unidad", attributes := [] }

/-- Counterexample refuting the second half of C1: two products with
different names (and different descriptions) whose hashed content strings
coincide (`a|b||c` both), because `|` is used as an unescaped separator;
their SHA-256 digests therefore also coincide, so a name change does not
always change the hash. -/
theorem claim_c1_counterexample :
    c1x1.name ≠ c1x2.name ∧ c1x1.price = c1x2.price ∧ c1x1.stock = c1x2.stock ∧
    c1x1.category = c1x2.category ∧ c1x1.attributes = c1x2.attributes ∧
    compute_text_hash c1x1 = compute_text_hash c1x2 := by
  refine ⟨?_, rfl, rfl, rfl, rfl, ?_⟩ <;> decide

/-- C2: the classification loop partitions its input: the embedding list is
exactly the sublist of products satisfying `needs_embedding` (forced, or no
stored hash for the sku, or stored hash differing from the recomputed one),
the metadata-only list is exactly the complementary sublist, and the two
lengths sum to the input length, so every product lands in exactly one of
the two lists. -/
theorem claim_c2_classification_partition
    (force : Bool) (hashes : String → Option String) (ps : List ProductDB) :
    (classify_products force hashes ps).1 = ps.filter (needs_embedding force hashes) ∧
    (classify_products force hashes ps).2 =
      ps.filter (fun p => ! needs_embedding force hashes p) ∧
    (classify_products force hashes ps).1.length +
      (classify_products force hashes ps).2.length = ps.length ∧
    (∀ p, p ∈ (classify_products force hashes ps).1 ↔
      p ∈ ps ∧ needs_embedding force hashes p = true) ∧
    (∀ p, p ∈ (classify_products force hashes ps).2 ↔
      p ∈ ps ∧ needs_embedding force hashes p = false) := by
  have hcons : ∀ (p : ProductDB) (rest : List ProductDB),
      classify_products force hashes (p :: rest) =
        if needs_embedding force hashes p then
          (p :: (classify_products force hashes rest).1,
            (classify_products force hashes rest).2)
        else ((classify_products force hashes rest).1,
          p :: (classify_products force hashes rest).2) := by
    intro p rest
    cases hf : force with
    | true => simp [classify_products, needs_embedding]
    | false =>
        cases hh : hashes p.sku with
        | none => simp [classify_products, needs_embedding, hh]
        | some h =>
            by_cases he : h = compute_text_hash p <;>
              simp [classify_products, needs_embedding, hh, he, bne]
  have hmain : (classify_products force hashes ps).1 =
      ps.filter (needs_embedding force hashes) ∧
      (classify_products force hashes ps).2 =
        ps.filter (fun p => ! needs_embedding force hashes p) := by
    induction ps with
    | nil => simp [classify_products]
    | cons p rest ih =>
        obtain ⟨ih1, ih2⟩ := ih
        by_cases hp : needs_embedding force hashes p
        · simp [hcons, hp, ih1, ih2]
        · simp [hcons, hp, ih1, ih2]
  obtain ⟨h1, h2⟩ := hmain
  have hlensum : ∀ (l : List ProductDB) (q : ProductDB → Bool),
      (l.filter q).length + (l.filter (fun a => ! q a)).length = l.length := by
    intro l q
    induction l with
    | nil => simp
    | cons a t ih =>
        by_cases hq : q a
        · simp [hq]
          omega
        · simp [hq]
          omega
  refine ⟨h1, h2, ?_, ?_, ?_⟩
  · rw [h1, h2]
    exact hlensum ps (needs_embedding force hashes)
  · intro p
    rw [h1, List.mem_filter]
  · intro p
    rw [h2, List.mem_filter]
    simp

/-- Python `str.replace(c, "")` for a one-character pattern. -/
def removeChar (c : Char) (s : String) : String :=
  String.mk (s.toList.filter (fun x => x ≠ c))

/-- Python `str.strip()` (whitespace removal at both ends). -/
def trimStr (s : String) : String :=
  String.mk (((s.toList.dropWhile Char.isWhitespace).reverse.dropWhile
    Char.isWhitespace).reverse)

/-- Python `str.rindex(c)`: the index of the last occurrence of `c`
(only used below under a containment guard; 0 when absent). -/
def lastIndexOf (s : String) (c : Char) : Nat :=
  (List.range s.toList.length).foldl
    (fun acc i => if s.toList.getD i ' ' = c then i else acc) 0

/-- Split of a character list on a separator character, used to parse
decimal numeric strings. -/
def splitOnChar (c : Char) : List Char → List (List Char)
  | [] => [[]]
  | x :: rest =>
    match splitOnChar c rest with
    | [] => [[x]]
    | h :: t => if x = c then [] :: h :: t else (x :: h) :: t

/-- Numeric value of a digit string. -/
def digitsToNat (l : List Char) : Nat :=
  l.foldl (fun a c => a * 10 + (c.toNat - 48)) 0

/-- Exact rational addition, written through `mkRat` so that concrete
values evaluate by kernel reduction (the library `Rat.add` is declared
irreducible); proved equal to `+` below. -/
def ratAdd (a b : Rat) : Rat :=
  mkRat (a.num * (b.den : Int) + b.num * (a.den : Int)) (a.den * b.den)

/-- Exact rational multiplication through `mkRat`; proved equal to `*`
below. -/
def ratMul (a b : Rat) : Rat :=
  mkRat (a.num * b.num) (a.den * b.den)

/-- Exact rational negation through `mkRat`; proved equal to `-·` below. -/
def ratNeg (a : Rat) : Rat :=
  mkRat (-a.num) a.den

theorem ratAdd_eq_add (a b : Rat) : ratAdd a b = a + b := by
  rw [ratAdd, Rat.mkRat_eq_div]
  have hda : ((a.den : Rat)) ≠ 0 := by
    exact_mod_cast a.den_nz
  have hdb : ((b.den : Rat)) ≠ 0 := by
    exact_mod_cast b.den_nz
  conv_rhs => rw [← Rat.num_div_den a, ← Rat.num_div_den b]
  push_cast
  field_simp

theorem ratMul_eq_mul (a b : Rat) : ratMul a b = a * b := by
  rw [ratMul, Rat.mkRat_eq_div]
  have hda : ((a.den : Rat)) ≠ 0 := by
    exact_mod_cast a.den_nz
  have hdb : ((b.den : Rat)) ≠ 0 := by
    exact_mod_cast b.den_nz
  conv_rhs => rw [← Rat.num_div_den a, ← Rat.num_div_den b]
  push_cast
  field_simp

theorem ratNeg_eq_neg (a : Rat) : ratNeg a = -a := by
  rw [ratNeg, Rat.mkRat_eq_div]
  have hda : ((a.den : Rat)) ≠ 0 := by
    exact_mod_cast a.den_nz
  conv_rhs => rw [← Rat.num_div_den a]
  push_cast
  exact neg_div _ _

/-- Unsigned part of Python's `Decimal` numeric-string grammar:
`digits`, `digits.digits`, `.digits` or `digits.` (at least one digit).
Exponents and the special values NaN/Infinity are outside the fragment
used by this repository and are not modelled. -/
def parseUnsignedDec (l : List Char) : Option Rat :=
  match splitOnChar '.' l with
  | [ip] =>
      if ip ≠ [] ∧ ip.all Char.isDigit then some (mkRat (digitsToNat ip) 1) else none
  | [ip, fp] =>
      if (ip ≠ [] ∨ fp ≠ []) ∧ ip.all Char.isDigit ∧ fp.all Char.isDigit then
        some (ratAdd (mkRat (digitsToNat ip) 1) (mkRat (digitsToNat fp) (10 ^ fp.length)))
      else none
  | _ => none

/-- Python `Decimal(s)` on the numeric-string fragment: optional sign after
stripping surrounding whitespace and underscores. -/
def parseDecStr (s : String) : Option Rat :=
  match (trimStr s).toList.filter (fun c => c ≠ '_') with
  | '+' :: rest => parseUnsignedDec rest
  | '-' :: rest => (parseUnsignedDec rest).map ratNeg
  | l => parseUnsignedDec l

/-- Python `int(s)` on strings: optional sign and digits, with surrounding
whitespace and underscores tolerated. -/
def parseIntStr (s : String) : Option Int :=
  let digits : List Char → Option Int := fun l =>
    if l ≠ [] ∧ l.all Char.isDigit then some ((digitsToNat l : Nat) : Int) else none
  match (trimStr s).toList.filter (fun c => c ≠ '_') with
  | '+' :: rest => digits rest
  | '-' :: rest => (digits rest).map (fun n => -n)
  | l => digits l

/-- Python `Decimal.quantize(…, rounding=ROUND_HALF_UP)` at `decimals`
fractional digits: round to the nearest multiple of `10 ^ (-decimals)`,
ties away from zero. -/
def round_half_up (decimals : Nat) (q : Rat) : Rat :=
  let m : Nat := 10 ^ decimals
  if 0 ≤ q then mkRat ⌊ratAdd (ratMul q (mkRat m 1)) (mkRat 1 2)⌋ m
  else ratNeg (mkRat ⌊ratAdd (ratMul (ratNeg q) (mkRat m 1)) (mkRat 1 2)⌋ m)

/-- Model of `ProductNormalizer.normalize_price`
(src/transformers/normalizers.py lines 168-212).  String inputs first lose
currency symbols, then every comma and space (line 190), then the
European-format branch (lines 193-195) applies only when both a comma and a
dot remain, after which the value is parsed as a `Decimal` (0 on failure),
scaled by the configured multiplier and rounded half-up to the configured
number of decimals.  Non-string inputs go straight to `Decimal(str(price))`:
exact for `int`/`Decimal`/`float` values (modelled as rationals), a parse
failure — `None` short-circuits earlier, containers raise — yields 0. -/
def normalize_price (price_multiplier : Rat) (price_decimals : Nat) (price : PyVal) : Rat :=
  match price with
  | .vnone => 0
  | .vstr s =>
      let s1 := removeChar '£' (removeChar '€' (removeChar '$' s))
      let s2 := trimStr (removeChar ' ' (removeChar ',' s1))
      let s3 :=
        if s2.toList.contains ',' && s2.toList.contains '.' then
          if lastIndexOf s2 ',' > lastIndexOf s2 '.' then
            String.mk ((s2.toList.filter (fun c => c ≠ '.')).map
              (fun c => if c = ',' then '.' else c))
          else s2
        else s2
      match parseDecStr s3 with
      | none => 0
      | some q => round_half_up price_decimals (ratMul q price_multiplier)
  | .vint n => round_half_up price_decimals (ratMul (mkRat n 1) price_multiplier)
  | .vdec q => round_half_up price_decimals (ratMul q price_multiplier)
  | _ => 0

/-- C3: evaluation of `normalize_price` (default multiplier 1, default
precision 2) at the inputs named by the claim.  `"$1,234.56"`, `1000` and
unparsable input behave as claimed, but the European-format string
`"1.234,56"` yields `1.23` instead of the claimed `1234.56`: line 190 of
src/transformers/normalizers.py deletes every comma before the
later-separator branch at lines 193-195 runs, so that branch (documented in
the source comment as `1.234,56 -> 1234.56`) is unreachable. -/
theorem claim_c3_normalize_price_eval :
    normalize_price (mkRat 1 1) 2 (PyVal.vstr "1.234,56") = mkRat 123 100 ∧
    ¬ normalize_price (mkRat 1 1) 2 (PyVal.vstr "1.234,56") = mkRat 123456 100 ∧
    normalize_price (mkRat 1 1) 2 (PyVal.vstr "$1,234.56") = mkRat 123456 100 ∧
    normalize_price (mkRat 1 1) 2 (PyVal.vint 1000) = mkRat 1000 1 ∧
    normalize_price (mkRat 1 1) 2 (PyVal.vstr "abc") = 0 := by
  refine ⟨?_, ?_, ?_, ?_, ?_⟩ <;> decide

/-- Embedding of the dataclass `ValidationError`
(src/transformers/validators.py lines 13-19); the `value` payload carries
the offending value. -/
structure ValidationError where
  field : String
  message : String
  value : PyVal

/-- Embedding of the dataclass `ValidationResult`
(src/transformers/validators.py lines 22-35). -/
structure ValidationResult where
  is_valid : Bool
  errors : List ValidationError
  warnings : List ValidationError

/-- Method `ValidationResult.add_error`: append the error and clear the
validity flag. -/
def ValidationResult.add_error (r : ValidationResult) (f m : String)
    (v : PyVal) : ValidationResult :=
  { r with errors := r.errors ++ [⟨f, m, v⟩], is_valid := false }

/-- Method `ValidationResult.add_warning`: append the warning. -/
def ValidationResult.add_warning (r : ValidationResult) (f m : String)
    (v : PyVal) : ValidationResult :=
  { r with warnings := r.warnings ++ [⟨f, m, v⟩] }

/-- Constructor arguments of `ProductValidator`
(src/transformers/validators.py lines 64-74), with the source defaults. -/
structure ValidatorConfig where
  require_positive_stock : Bool := false
  min_price : Rat := mkRat 1 100
  max_name_length : Nat := 500
  max_description_length : Nat := 5000

/-- Python `data.get(f)` combined with the `is None` tests of the
validator: an absent key and a stored `None` are indistinguishable. -/
def pyGet (d : PRecord) (f : String) : Option PyVal :=
  match getVal d f with
  | some PyVal.vnone => none
  | o => o

/-- Python `str(v)` on the embedded values.  Exact for strings and
integers (the only cases reachable under the validator's type checks);
other representations are abstracted. -/
def pyStr : PyVal → String
  | .vstr s => s
  | .vint n => toString n
  | .vnone => "None"
  | .vdec q => toString q.num ++ "e" ++ toString q.den
  | .vdict _ => "dict"
  | .vlist _ => "list"

/-- Type admissibility of `price` per `REQUIRED_FIELDS`: `(int, float,
Decimal, str)` (`float` and `Decimal` both embed as `vdec`). -/
def priceTypeOk : PyVal → Bool
  | .vint _ => true
  | .vdec _ => true
  | .vstr _ => true
  | _ => false

/-- Type admissibility of `stock` per `REQUIRED_FIELDS`: `(int, str)`. -/
def stockTypeOk : PyVal → Bool
  | .vint _ => true
  | .vstr _ => true
  | _ => false

/-- Type admissibility of the three string fields per `REQUIRED_FIELDS`. -/
def strTypeOk : PyVal → Bool
  | .vstr _ => true
  | _ => false

/-- Model of `ProductValidator._validate_required_fields`
(src/transformers/validators.py lines 104-129): each required field in
declaration order is checked for presence and type. -/
def validate_required_fields (d : PRecord) (r : ValidationResult) : ValidationResult :=
  [("sku", strTypeOk), ("name", strTypeOk), ("category", strTypeOk),
    ("price", priceTypeOk), ("stock", stockTypeOk)].foldl
    (fun r fo =>
      match pyGet d fo.1 with
      | none => r.add_error fo.1 "campo requerido faltante" PyVal.vnone
      | some v => if fo.2 v then r else r.add_error fo.1 "tipo invalido" v)
    r

/-- Model of `ProductValidator._validate_sku`
(src/transformers/validators.py lines 131-140). -/
def validate_sku (sku : Option PyVal) (r : ValidationResult) : ValidationResult :=
  match sku with
  | none => r
  | some v =>
      let s := trimStr (pyStr v)
      if s = "" then r.add_error "sku" "SKU no puede estar vacio" PyVal.vnone
      else if s.length > 100 then r.add_error "sku" "SKU muy largo" PyVal.vnone else r

/-- Model of `ProductValidator._validate_name`
(src/transformers/validators.py lines 142-155). -/
def validate_name (cfg : ValidatorConfig) (name : Option PyVal)
    (r : ValidationResult) : ValidationResult :=
  match name with
  | none => r
  | some v =>
      let s := trimStr (pyStr v)
      if s = "" then r.add_error "name" "Nombre no puede estar vacio" PyVal.vnone
      else if s.length > cfg.max_name_length then
        r.add_warning "name" "Nombre muy largo" PyVal.vnone else r

/-- Python `Decimal(str(price))` on the embedded values, `none` when the
conversion raises. -/
def parsePriceVal : PyVal → Option Rat
  | .vint n => some (mkRat n 1)
  | .vdec q => some q
  | .vstr s => parseDecStr s
  | _ => none

/-- Python `int(stock)` on the embedded values, `none` when the conversion
raises (`int` of a rational truncates toward zero). -/
def parseStockVal : PyVal → Option Int
  | .vint n => some n
  | .vstr s => parseIntStr s
  | .vdec q => some (q.num.tdiv (q.den : Int))
  | _ => none

/-- Model of `ProductValidator._validate_price`
(src/transformers/validators.py lines 157-174): parse failure → error,
non-positive value → error, value below the configured minimum →
warning. -/
def validate_price (cfg : ValidatorConfig) (price : Option PyVal)
    (r : ValidationResult) : ValidationResult :=
  match price with
  | none => r
  | some v =>
      match parsePriceVal v with
      | none => r.add_error "price" "Precio invalido" v
      | some q =>
          if q ≤ 0 then r.add_error "price" "Precio debe ser mayor a 0" PyVal.vnone
          else if q < cfg.min_price then r.add_warning "price" "Precio muy bajo" PyVal.vnone
          else r

/-- Model of `ProductValidator._validate_stock`
(src/transformers/validators.py lines 176-190): parse failure → error,
negative value → error, zero with `require_positive_stock` → warning. -/
def validate_stock (cfg : ValidatorConfig) (stock : Option PyVal)
    (r : ValidationResult) : ValidationResult :=
  match stock with
  | none => r
  | some v =>
      match parseStockVal v with
      | none => r.add_error "stock" "Stock invalido" v
      | some n =>
          if n < 0 then r.add_error "stock" "Stock no puede ser negativo" PyVal.vnone
          else if cfg.require_positive_stock && n == 0 then
            r.add_warning "stock" "Stock es cero" PyVal.vnone
          else r

/-- Model of `ProductValidator._validate_description`
(src/transformers/validators.py lines 192-205). -/
def validate_description (cfg : ValidatorConfig) (description : Option PyVal)
    (r : ValidationResult) : ValidationResult :=
  match description with
  | none => r
  | some v =>
      if (trimStr (pyStr v)).length > cfg.max_description_length then
        r.add_warning "description" "Descripcion muy larga" PyVal.vnone
      else r

/-- Model of `ProductValidator.validate`
(src/transformers/validators.py lines 76-102): required-field check first,
short-circuiting the per-field checks when it fails; then the sku, name,
price, stock and description checks in order. -/
def validate (cfg : ValidatorConfig) (d : PRecord) : ValidationResult :=
  let r1 := validate_required_fields d ⟨true, [], []⟩
  if r1.is_valid then
    validate_description cfg (pyGet d "description")
      (validate_stock cfg (pyGet d "stock")
        (validate_price cfg (pyGet d "price")
          (validate_name cfg (pyGet d "name")
            (validate_sku (pyGet d "sku") r1))))
  else r1

theorem validate_sku_delta (v : Option PyVal) (r : ValidationResult) :
    ∃ l, (validate_sku v r).errors = r.errors ++ l ∧ (∀ e ∈ l, e.field = "sku") ∧
      (validate_sku v r).warnings = r.warnings := by
  match v with
  | none => exact ⟨[], by simp [validate_sku]⟩
  | some w =>
      by_cases h1 : trimStr (pyStr w) = ""
      · exact ⟨[⟨"sku", "SKU no puede estar vacio", PyVal.vnone⟩],
          by simp [validate_sku, h1, ValidationResult.add_error]⟩
      · by_cases h2 : (trimStr (pyStr w)).length > 100
        · exact ⟨[⟨"sku", "SKU muy largo", PyVal.vnone⟩],
            by simp [validate_sku, h1, h2, ValidationResult.add_error]⟩
        · exact ⟨[], by simp [validate_sku, h1, h2]⟩

theorem validate_name_delta (cfg : ValidatorConfig) (v : Option PyVal)
    (r : ValidationResult) :
    ∃ l w, (validate_name cfg v r).errors = r.errors ++ l ∧
      (∀ e ∈ l, e.field = "name") ∧
      (validate_name cfg v r).warnings = r.warnings ++ w := by
  match v with
  | none => exact ⟨[], [], by simp [validate_name]⟩
  | some x =>
      by_cases h1 : trimStr (pyStr x) = ""
      · exact ⟨[⟨"name", "Nombre no puede estar vacio", PyVal.vnone⟩], [],
          by simp [validate_name, h1, ValidationResult.add_error]⟩
      · by_cases h2 : (trimStr (pyStr x)).length > cfg.max_name_length
        · exact ⟨[], [⟨"name", "Nombre muy largo", PyVal.vnone⟩],
            by simp [validate_name, h1, h2, ValidationResult.add_warning]⟩
        · exact ⟨[], [], by simp [validate_name, h1, h2]⟩

theorem validate_stock_delta (cfg : ValidatorConfig) (v : Option PyVal)
    (r : ValidationResult) :
    ∃ l w, (validate_stock cfg v r).errors = r.errors ++ l ∧
      (∀ e ∈ l, e.field = "stock") ∧
      (validate_stock cfg v r).warnings = r.warnings ++ w := by
  match v with
  | none => exact ⟨[], [], by simp [validate_stock]⟩
  | some x =>
      match hp : parseStockVal x with
      | none => exact ⟨[⟨"stock", "Stock invalido", x⟩], [],
          by simp [validate_stock, hp, ValidationResult.add_error]⟩
      | some n =>
          by_cases h1 : n < 0
          · exact ⟨[⟨"stock", "Stock no puede ser negativo", PyVal.vnone⟩], [],
              by simp [validate_stock, hp, h1, ValidationResult.add_error]⟩
          · by_cases h2 : (cfg.require_positive_stock && n == 0) = true
            · exact ⟨[], [⟨"stock", "Stock es cero", PyVal.vnone⟩],
                by simp [validate_stock, hp, h1, h2, ValidationResult.add_warning]⟩
            · exact ⟨[], [], by simp [validate_stock, hp, h1, h2]⟩

theorem validate_description_delta (cfg : ValidatorConfig) (v : Option PyVal)
    (r : ValidationResult) :
    ∃ w, (validate_description cfg v r).errors = r.errors ∧
      (validate_description cfg v r).warnings = r.warnings ++ w := by
  match v with
  | none => exact ⟨[], by simp [validate_description]⟩
  | some x =>
      by_cases h1 : (trimStr (pyStr x)).length > cfg.max_description_length
      · exact ⟨[⟨"description", "Descripcion muy larga", PyVal.vnone⟩],
          by simp [validate_description, h1, ValidationResult.add_warning]⟩
      · exact ⟨[], by simp [validate_description, h1]⟩

theorem validate_price_le_zero (cfg : ValidatorConfig) (pv : PyVal) (q : Rat)
    (r : ValidationResult) (hp : parsePriceVal pv = some q) (hq : q ≤ 0) :
    (validate_price cfg (some pv) r).errors =
      r.errors ++ [⟨"price", "Precio debe ser mayor a 0", PyVal.vnone⟩] ∧
    (validate_price cfg (some pv) r).warnings = r.warnings := by
  simp [validate_price, hp, hq, ValidationResult.add_error]

theorem validate_price_low_warn (cfg : ValidatorConfig) (pv : PyVal) (q : Rat)
    (r : ValidationResult) (hp : parsePriceVal pv = some q) (hq : ¬ q ≤ 0)
    (hlow : q < cfg.min_price) :
    (validate_price cfg (some pv) r).errors = r.errors ∧
    (validate_price cfg (some pv) r).warnings =
      r.warnings ++ [⟨"price", "Precio muy bajo", PyVal.vnone⟩] := by
  simp [validate_price, hp, hq, hlow, ValidationResult.add_warning]

theorem validate_price_ok (cfg : ValidatorConfig) (pv : PyVal) (q : Rat)
    (r : ValidationResult) (hp : parsePriceVal pv = some q) (hq : ¬ q ≤ 0)
    (hlow : ¬ q < cfg.min_price) :
    validate_price cfg (some pv) r = r := by
  simp [validate_price, hp, hq, hlow]

theorem validate_required_ok (d : PRecord)
    (sk nm ct : String) (pv sv : PyVal)
    (hsku : pyGet d "sku" = some (PyVal.vstr sk))
    (hname : pyGet d "name" = some (PyVal.vstr nm))
    (hcat : pyGet d "category" = some (PyVal.vstr ct))
    (hprice : pyGet d "price" = some pv) (hpt : priceTypeOk pv = true)
    (hstock : pyGet d "stock" = some sv) (hst : stockTypeOk sv = true) :
    validate_required_fields d ⟨true, [], []⟩ = ⟨true, [], []⟩ := by
  simp [validate_required_fields, hsku, hname, hcat, hprice, hstock, hpt, hst, strTypeOk]

theorem validate_stock_neg (cfg : ValidatorConfig) (sv : PyVal) (n : Int)
    (r : ValidationResult) (hp : parseStockVal sv = some n) (hn : n < 0) :
    (validate_stock cfg (some sv) r).errors =
      r.errors ++ [⟨"stock", "Stock no puede ser negativo", PyVal.vnone⟩] ∧
    (validate_stock cfg (some sv) r).warnings = r.warnings := by
  simp [validate_stock, hp, hn, ValidationResult.add_error]

theorem validate_stock_nonneg (cfg : ValidatorConfig) (sv : PyVal) (n : Int)
    (r : ValidationResult) (hp : parseStockVal sv = some n) (hn : ¬ n < 0) :
    (validate_stock cfg (some sv) r).errors = r.errors := by
  by_cases h2 : (cfg.require_positive_stock && n == 0) = true
  · simp [validate_stock, hp, hn, h2, ValidationResult.add_warning]
  · simp [validate_stock, hp, hn, h2]

theorem validate_sku_ok (v : PyVal) (r : ValidationResult)
    (h1 : trimStr (pyStr v) ≠ "") (h2 : ¬ (trimStr (pyStr v)).length > 100) :
    validate_sku (some v) r = r := by
  simp [validate_sku, h1, h2]

theorem validate_name_nonempty (cfg : ValidatorConfig) (v : PyVal)
    (r : ValidationResult) (h1 : trimStr (pyStr v) ≠ "") :
    (validate_name cfg (some v) r).errors = r.errors := by
  by_cases h2 : (trimStr (pyStr v)).length > cfg.max_name_length
  · simp [validate_name, h1, h2, ValidationResult.add_warning]
  · simp [validate_name, h1, h2]

/-- C9: with the five required fields present and well-typed, the validator
emits a `price`-tagged error whenever the parsed price is non-positive, a
`price`-tagged warning and no `price`-tagged error whenever the parsed
price is positive but below the configured minimum, a `stock`-tagged error
whenever the parsed stock is negative, and no errors at all on a
well-formed record. -/
theorem claim_c9_validator (cfg : ValidatorConfig) (d : PRecord)
    (sk nm ct : String) (pv sv : PyVal)
    (hsku : pyGet d "sku" = some (PyVal.vstr sk))
    (hname : pyGet d "name" = some (PyVal.vstr nm))
    (hcat : pyGet d "category" = some (PyVal.vstr ct))
    (hprice : pyGet d "price" = some pv) (hpt : priceTypeOk pv = true)
    (hstock : pyGet d "stock" = some sv) (hst : stockTypeOk sv = true) :
    (∀ q, parsePriceVal pv = some q → q ≤ 0 →
      ∃ e ∈ (validate cfg d).errors, e.field = "price") ∧
    (∀ q, parsePriceVal pv = some q → ¬ q ≤ 0 → q < cfg.min_price →
      (∃ w ∈ (validate cfg d).warnings, w.field = "price") ∧
      (∀ e ∈ (validate cfg d).errors, e.field ≠ "price")) ∧
    (∀ n, parseStockVal sv = some n → n < 0 →
      ∃ e ∈ (validate cfg d).errors, e.field = "stock") ∧
    (∀ q n, parsePriceVal pv = some q → ¬ q ≤ 0 → ¬ q < cfg.min_price →
      parseStockVal sv = some n → ¬ n < 0 →
      trimStr sk ≠ "" → ¬ (trimStr sk).length > 100 → trimStr nm ≠ "" →
      (validate cfg d).errors = []) := by
  have hreq := validate_required_ok d sk nm ct pv sv hsku hname hcat hprice hpt hstock hst
  have hval : validate cfg d =
      validate_description cfg (pyGet d "description")
        (validate_stock cfg (some sv)
          (validate_price cfg (some pv)
            (validate_name cfg (some (PyVal.vstr nm))
              (validate_sku (some (PyVal.vstr sk)) ⟨true, [], []⟩)))) := by
    rw [validate]
    simp only [hreq, hsku, hname, hprice, hstock]
    rfl
  set r1 : ValidationResult := ⟨true, [], []⟩ with hr1
  obtain ⟨l1, h1e, h1f, h1w⟩ := validate_sku_delta (some (PyVal.vstr sk)) r1
  set rSku := validate_sku (some (PyVal.vstr sk)) r1 with hrsku
  obtain ⟨l2, w2, h2e, h2f, h2w⟩ := validate_name_delta cfg (some (PyVal.vstr nm)) rSku
  set rName := validate_name cfg (some (PyVal.vstr nm)) rSku with hrname
  refine ⟨?_, ?_, ?_, ?_⟩
  · -- non-positive price: a price error is recorded and survives to the end
    intro q hq hle
    obtain ⟨hpe, hpw⟩ := validate_price_le_zero cfg pv q rName hq hle
    set rPrice := validate_price cfg (some pv) rName with hrprice
    obtain ⟨l4, w4, h4e, h4f, h4w⟩ := validate_stock_delta cfg (some sv) rPrice
    set rStock := validate_stock cfg (some sv) rPrice with hrstock
    obtain ⟨w5, h5e, h5w⟩ := validate_description_delta cfg (pyGet d "description") rStock
    rw [hval, h5e, h4e, hpe]
    exact ⟨⟨"price", "Precio debe ser mayor a 0", PyVal.vnone⟩, by simp, rfl⟩
  · -- low positive price: a price warning but no price error
    intro q hq hpos hlow
    obtain ⟨hpe, hpw⟩ := validate_price_low_warn cfg pv q rName hq hpos hlow
    set rPrice := validate_price cfg (some pv) rName with hrprice
    obtain ⟨l4, w4, h4e, h4f, h4w⟩ := validate_stock_delta cfg (some sv) rPrice
    set rStock := validate_stock cfg (some sv) rPrice with hrstock
    obtain ⟨w5, h5e, h5w⟩ := validate_description_delta cfg (pyGet d "description") rStock
    constructor
    · rw [hval, h5w, h4w, hpw]
      exact ⟨⟨"price", "Precio muy bajo", PyVal.vnone⟩, by simp, rfl⟩
    · intro e he
      rw [hval, h5e, h4e, hpe, h2e, h1e] at he
      simp only [hr1, List.nil_append, List.mem_append] at he
      rcases he with ((he | he) | he)
      · rw [h1f e he]
        decide
      · rw [h2f e he]
        decide
      · rw [h4f e he]
        decide
  · -- negative stock: a stock error is recorded
    intro n hn hneg
    set rPrice := validate_price cfg (some pv) rName with hrprice
    obtain ⟨hse, hsw⟩ := validate_stock_neg cfg sv n rPrice hn hneg
    set rStock := validate_stock cfg (some sv) rPrice with hrstock
    obtain ⟨w5, h5e, h5w⟩ := validate_description_delta cfg (pyGet d "description") rStock
    rw [hval, h5e, hse]
    exact ⟨⟨"stock", "Stock no puede ser negativo", PyVal.vnone⟩, by simp, rfl⟩
  · -- well-formed record: no errors at all
    intro q n hq hpos hlow hn hnneg hskune hskulen hnmne
    have hsid : validate_sku (some (PyVal.vstr sk)) r1 = r1 :=
      validate_sku_ok (PyVal.vstr sk) r1 (by simpa [pyStr] using hskune)
        (by simpa [pyStr] using hskulen)
    have hprid := validate_price_ok cfg pv q rName hq hpos hlow
    set rPrice := validate_price cfg (some pv) rName with hrprice
    have hstid : (validate_stock cfg (some sv) rPrice).errors = rPrice.errors :=
      validate_stock_nonneg cfg sv n rPrice hn hnneg
    set rStock := validate_stock cfg (some sv) rPrice with hrstock
    obtain ⟨w5, h5e, h5w⟩ := validate_description_delta cfg (pyGet d "description") rStock
    have hnme : rName.errors = rSku.errors :=
      validate_name_nonempty cfg (PyVal.vstr nm) rSku (by simpa [pyStr] using hnmne)
    rw [hval, h5e, hstid, hprid, hnme, hrsku, hsid, hr1]

/-- Witness record for C9: all required fields present, typed and
well-formed. -/
def c9rec : PRecord :=
  [("sku", PyVal.vstr "SKU001"), ("name", PyVal.vstr "Test Product"),
    ("category", PyVal.vstr "camisas"), ("price", PyVal.vint 100),
    ("stock", PyVal.vint 10)]

/-- Witness for C9: the default validator accepts the concrete well-formed
record with no errors. -/
theorem claim_c9_witness : (validate {} c9rec).errors = [] :=
  (claim_c9_validator {} c9rec "SKU001" "Test Product" "camisas"
      (PyVal.vint 100) (PyVal.vint 10) rfl rfl rfl rfl rfl rfl rfl).2.2.2
    (mkRat 100 1) 10 rfl (by decide) (by decide) rfl (by decide)
    (by decide) (by decide) (by decide)

/-- The three duplicate policies of `ProductNormalizer`
(src/transformers/normalizers.py line 121). -/
inductive DupStrategy where
  | keep_first : DupStrategy
  | keep_latest : DupStrategy
  | merge : DupStrategy

/-- Python `+` on the embedded values: numbers add, strings and lists
concatenate, any other combination raises (`none`). -/
def pyAdd : PyVal → PyVal → Option PyVal
  | .vint a, .vint b => some (.vint (a + b))
  | .vint a, .vdec b => some (.vdec (ratAdd (mkRat a 1) b))
  | .vdec a, .vint b => some (.vdec (ratAdd a (mkRat b 1)))
  | .vdec a, .vdec b => some (.vdec (ratAdd a b))
  | .vstr a, .vstr b => some (.vstr (a ++ b))
  | .vlist a, .vlist b => some (.vlist (a ++ b))
  | _, _ => none

/-- Python `{**m, **l}`: start from `m` and write every entry of `l` over
it, so keys of `l` win on conflict. -/
def attrUnion (m l : List (String × PyVal)) : List (String × PyVal) :=
  l.foldl (fun acc kv => setVal acc kv.1 kv.2) m

/-- One iteration of the loop of `ProductNormalizer._default_merge`
(src/transformers/normalizers.py lines 297-326) on entry `(k, v)` of the
newer record: `None` values never overwrite, `stock` values are added to
the accumulated stock (default 0), a dict under `attributes` is unioned
over the accumulated dict (default empty) with the newer keys winning, and
every other value replaces; a type mismatch in `+` or `{**...}` raises
(`none`). -/
def mergeStep (acc : PRecord) (k : String) (v : PyVal) : Option PRecord :=
  match v with
  | PyVal.vnone => some acc
  | v =>
    if k = "stock" then
      match pyAdd ((getVal acc "stock").getD (PyVal.vint 0)) v with
      | some s => some (setVal acc k s)
      | none => none
    else if k = "attributes" then
      match v, (getVal acc k).getD (PyVal.vdict []) with
      | PyVal.vdict l, PyVal.vdict m => some (setVal acc k (PyVal.vdict (attrUnion m l)))
      | PyVal.vdict _, _ => none
      | v, _ => some (setVal acc k v)
    else some (setVal acc k v)

/-- Iteration of `mergeStep` over the newer record's entries, in order. -/
def mergeFold (acc : PRecord) : List (String × PyVal) → Option PRecord
  | [] => some acc
  | (k, v) :: rest =>
    match mergeStep acc k v with
    | none => none
    | some acc' => mergeFold acc' rest

/-- Model of `ProductNormalizer._default_merge`: copy the existing record
and fold the newer record's entries over it. -/
def default_merge (existing new : PRecord) : Option PRecord :=
  mergeFold existing new

/-- Value produced for key `k` by a successful `mergeStep` with previous
value `prev` (`none` when `k` was absent). -/
def combine (prev : Option PyVal) (k : String) (v : PyVal) : PyVal :=
  if k = "stock" then (pyAdd (prev.getD (PyVal.vint 0)) v).getD v
  else if k = "attributes" then
    match v, prev.getD (PyVal.vdict []) with
    | PyVal.vdict l, PyVal.vdict m => PyVal.vdict (attrUnion m l)
    | _, _ => v
  else v

/-- Key extraction `product.get(key_field)` of `handle_duplicates`; a
record whose key is absent or `None` is dropped with a warning. -/
def keyOf (key_field : String) (p : PRecord) : Option PyVal :=
  match getVal p key_field with
  | none => none
  | some PyVal.vnone => none
  | some v => some v

/-- Membership test of the `seen` dictionary (keyed by the Python value of
the key field). -/
def seenHasKey (seen : List (PyVal × PRecord)) (k : PyVal) : Bool :=
  seen.any (fun e => PyVal.beq e.1 k)

/-- Read of the `seen` dictionary (defined when `seenHasKey` holds). -/
def seenGet (seen : List (PyVal × PRecord)) (k : PyVal) : PRecord :=
  ((seen.find? (fun e => PyVal.beq e.1 k)).map (·.2)).getD []

/-- Assignment `seen[key] = product`: an existing key keeps its position,
a new key is appended (CPython dict semantics). -/
def seenUpdate (seen : List (PyVal × PRecord)) (k : PyVal) (r : PRecord) :
    List (PyVal × PRecord) :=
  match seen with
  | [] => [(k, r)]
  | e :: rest => if PyVal.beq e.1 k then (e.1, r) :: rest else e :: seenUpdate rest k r

/-- Loop of `ProductNormalizer.handle_duplicates`
(src/transformers/normalizers.py lines 243-295) with the accumulated
`seen` dictionary; the result is `list(seen.values())`.  A merge failure
(Python exception) is `none`. -/
def handleDupGo (strat : DupStrategy) (key_field : String)
    (seen : List (PyVal × PRecord)) : List PRecord → Option (List PRecord)
  | [] => some (seen.map (·.2))
  | p :: rest =>
    match keyOf key_field p with
    | none => handleDupGo strat key_field seen rest
    | some k =>
      if seenHasKey seen k then
        match strat with
        | .keep_first => handleDupGo strat key_field seen rest
        | .keep_latest => handleDupGo strat key_field (seenUpdate seen k p) rest
        | .merge =>
          match default_merge (seenGet seen k) p with
          | none => none
          | some m => handleDupGo strat key_field (seenUpdate seen k m) rest
      else handleDupGo strat key_field (seen ++ [(k, p)]) rest

/-- Model of `ProductNormalizer.handle_duplicates` with the default merge
function. -/
def handle_duplicates (strat : DupStrategy) (key_field : String)
    (products : List PRecord) : Option (List PRecord) :=
  handleDupGo strat key_field [] products

theorem getVal_eq_none_of_not_mem (r : PRecord) (k : String)
    (h : k ∉ r.map Prod.fst) : getVal r k = none := by
  induction r with
  | nil => rfl
  | cons e rest ih =>
      simp only [List.map_cons, List.mem_cons] at h
      push_neg at h
      have hek : ¬ e.1 = k := fun hh => h.1 hh.symm
      simp [getVal, hek, ih h.2]

theorem mergeStep_some (acc acc' : PRecord) (k : String) (v : PyVal)
    (hs : mergeStep acc k v = some acc') (hv : v ≠ PyVal.vnone) :
    acc' = setVal acc k (combine (getVal acc k) k v) := by
  unfold mergeStep at hs
  cases v with
  | vnone => exact absurd rfl hv
  | vint n =>
      repeat' split at hs
      all_goals simp_all [combine]
  | vstr s =>
      repeat' split at hs
      all_goals simp_all [combine]
  | vdec q =>
      repeat' split at hs
      all_goals simp_all [combine]
  | vdict l =>
      repeat' split at hs
      all_goals simp_all [combine]
  | vlist l =>
      repeat' split at hs
      all_goals simp_all [combine]

/-- Result of one merged key: the newer entry when present and not `None`
(combined per `combine`), the accumulated value otherwise. -/
def mergeSpec (prev : Option PyVal) (entry : Option PyVal) (q : String) : Option PyVal :=
  match entry with
  | none => prev
  | some PyVal.vnone => prev
  | some v => some (combine prev q v)

theorem mergeSpec_some_ne (prev : Option PyVal) (v : PyVal) (q : String)
    (hv : v ≠ PyVal.vnone) : mergeSpec prev (some v) q = some (combine prev q v) := by
  cases v <;> simp_all [mergeSpec]

theorem mergeStep_vnone (acc : PRecord) (k : String) :
    mergeStep acc k PyVal.vnone = some acc := rfl

theorem mergeFold_char (es : List (String × PyVal)) : ∀ (acc m : PRecord),
    (es.map Prod.fst).Nodup → mergeFold acc es = some m →
    ∀ q, getVal m q = mergeSpec (getVal acc q) (getVal es q) q := by
  induction es with
  | nil =>
      intro acc m _ hm q
      rw [mergeFold] at hm
      cases hm
      simp [getVal, mergeSpec]
  | cons e rest ih =>
      intro acc m hnd hm q
      obtain ⟨k, v⟩ := e
      simp only [List.map_cons, List.nodup_cons] at hnd
      obtain ⟨hk_not, hnd'⟩ := hnd
      rw [mergeFold] at hm
      cases hstep : mergeStep acc k v with
      | none => rw [hstep] at hm; cases hm
      | some acc' =>
          rw [hstep] at hm
          by_cases hvn : v = PyVal.vnone
          · subst hvn
            have hacc : acc' = acc := by
              rw [mergeStep_vnone] at hstep
              exact (Option.some.injEq _ _ ▸ hstep).symm
            subst hacc
            have H := ih acc' m hnd' hm q
            by_cases hqk : q = k
            · subst hqk
              have hrest : getVal rest q = none := getVal_eq_none_of_not_mem rest q hk_not
              rw [H, hrest]
              simp [getVal, mergeSpec]
            · have hcons : getVal ((k, PyVal.vnone) :: rest) q = getVal rest q := by
                have : ¬ k = q := fun hh => hqk hh.symm
                simp [getVal, this]
              rw [H, hcons]
          · have hacc' := mergeStep_some acc acc' k v hstep hvn
            have H := ih acc' m hnd' hm q
            by_cases hqk : q = k
            · subst hqk
              have hrest : getVal rest q = none := getVal_eq_none_of_not_mem rest q hk_not
              rw [H, hrest]
              have hgacc' : getVal acc' q = some (combine (getVal acc q) q v) := by
                rw [hacc', getVal_setVal]
                simp
              have hcons : getVal ((q, v) :: rest) q = some v := by
                simp [getVal]
              rw [hcons, mergeSpec_some_ne _ _ _ hvn]
              simpa [mergeSpec] using hgacc'
            · have hcons : getVal ((k, v) :: rest) q = getVal rest q := by
                have : ¬ k = q := fun hh => hqk hh.symm
                simp [getVal, this]
              have hgacc' : getVal acc' q = getVal acc q := by
                rw [hacc', getVal_setVal]
                simp [hqk]
              rw [H, hcons, hgacc']

theorem mergeStep_success (acc : PRecord) (k : String) (v : PyVal)
    (hstock : k = "stock" → v ≠ PyVal.vnone →
      (pyAdd ((getVal acc "stock").getD (PyVal.vint 0)) v).isSome = true)
    (hattr : ∀ l, k = "attributes" → v = PyVal.vdict l →
      ∃ m', (getVal acc "attributes").getD (PyVal.vdict []) = PyVal.vdict m') :
    ∃ acc', mergeStep acc k v = some acc' := by
  cases v with
  | vnone => exact ⟨acc, rfl⟩
  | vdict l =>
      by_cases hk1 : k = "stock"
      · have h := hstock hk1 (by simp)
        obtain ⟨s, hs⟩ := Option.isSome_iff_exists.mp h
        subst hk1
        exact ⟨setVal acc "stock" s, by simp [mergeStep, hs]⟩
      · by_cases hk2 : k = "attributes"
        · obtain ⟨m', hm'⟩ := hattr l hk2 rfl
          subst hk2
          exact ⟨setVal acc "attributes" (PyVal.vdict (attrUnion m' l)),
            by simp [mergeStep, hk1, hm']⟩
        · exact ⟨setVal acc k (PyVal.vdict l), by simp [mergeStep, hk1, hk2]⟩
  | vint n =>
      by_cases hk1 : k = "stock"
      · have h := hstock hk1 (by simp)
        obtain ⟨s, hs⟩ := Option.isSome_iff_exists.mp h
        subst hk1
        exact ⟨setVal acc "stock" s, by simp [mergeStep, hs]⟩
      · by_cases hk2 : k = "attributes"
        · subst hk2
          exact ⟨setVal acc "attributes" (PyVal.vint n), by simp [mergeStep, hk1]⟩
        · exact ⟨setVal acc k (PyVal.vint n), by simp [mergeStep, hk1, hk2]⟩
  | vstr s =>
      by_cases hk1 : k = "stock"
      · have h := hstock hk1 (by simp)
        obtain ⟨w, hw⟩ := Option.isSome_iff_exists.mp h
        subst hk1
        exact ⟨setVal acc "stock" w, by simp [mergeStep, hw]⟩
      · by_cases hk2 : k = "attributes"
        · subst hk2
          exact ⟨setVal acc "attributes" (PyVal.vstr s), by simp [mergeStep, hk1]⟩
        · exact ⟨setVal acc k (PyVal.vstr s), by simp [mergeStep, hk1, hk2]⟩
  | vdec q =>
      by_cases hk1 : k = "stock"
      · have h := hstock hk1 (by simp)
        obtain ⟨w, hw⟩ := Option.isSome_iff_exists.mp h
        subst hk1
        exact ⟨setVal acc "stock" w, by simp [mergeStep, hw]⟩
      · by_cases hk2 : k = "attributes"
        · subst hk2
          exact ⟨setVal acc "attributes" (PyVal.vdec q), by simp [mergeStep, hk1]⟩
        · exact ⟨setVal acc k (PyVal.vdec q), by simp [mergeStep, hk1, hk2]⟩
  | vlist l =>
      by_cases hk1 : k = "stock"
      · have h := hstock hk1 (by simp)
        obtain ⟨w, hw⟩ := Option.isSome_iff_exists.mp h
        subst hk1
        exact ⟨setVal acc "stock" w, by simp [mergeStep, hw]⟩
      · by_cases hk2 : k = "attributes"
        · subst hk2
          exact ⟨setVal acc "attributes" (PyVal.vlist l), by simp [mergeStep, hk1]⟩
        · exact ⟨setVal acc k (PyVal.vlist l), by simp [mergeStep, hk1, hk2]⟩

theorem mergeFold_success (es : List (String × PyVal)) : ∀ (acc : PRecord),
    (es.map Prod.fst).Nodup →
    (∀ v, getVal es "stock" = some v → v ≠ PyVal.vnone →
      (pyAdd ((getVal acc "stock").getD (PyVal.vint 0)) v).isSome = true) →
    (∀ l, getVal es "attributes" = some (PyVal.vdict l) →
      ∃ m', (getVal acc "attributes").getD (PyVal.vdict []) = PyVal.vdict m') →
    ∃ m, mergeFold acc es = some m := by
  induction es with
  | nil =>
      intro acc _ _ _
      exact ⟨acc, rfl⟩
  | cons e rest ih =>
      intro acc hnd hstock hattr
      obtain ⟨k, v⟩ := e
      simp only [List.map_cons, List.nodup_cons] at hnd
      obtain ⟨hk_not, hnd'⟩ := hnd
      have hstep : ∃ acc', mergeStep acc k v = some acc' := by
        apply mergeStep_success
        · intro hk hv
          apply hstock v _ hv
          subst hk
          simp [getVal]
        · intro l hk hv
          apply hattr l
          subst hk hv
          simp [getVal]
      obtain ⟨acc', hacc'⟩ := hstep
      by_cases hvn : v = PyVal.vnone
      · subst hvn
        have haeq : acc' = acc := by
          rw [mergeStep_vnone] at hacc'
          exact (Option.some.injEq _ _ ▸ hacc').symm
        subst haeq
        have hstk : ∀ w, getVal rest "stock" = some w → w ≠ PyVal.vnone →
            (pyAdd ((getVal acc' "stock").getD (PyVal.vint 0)) w).isSome = true := by
          intro w hw hwn
          by_cases hk : k = "stock"
          · exact absurd hw (by simp [getVal_eq_none_of_not_mem rest "stock" (hk ▸ hk_not)])
          · exact hstock w (by simp [getVal, hk, hw]) hwn
        have hatt : ∀ l, getVal rest "attributes" = some (PyVal.vdict l) →
            ∃ m', (getVal acc' "attributes").getD (PyVal.vdict []) = PyVal.vdict m' := by
          intro l hl
          by_cases hk : k = "attributes"
          · exact absurd hl (by simp [getVal_eq_none_of_not_mem rest "attributes" (hk ▸ hk_not)])
          · exact hattr l (by simp [getVal, hk, hl])
        obtain ⟨m, hm⟩ := ih acc' hnd' hstk hatt
        exact ⟨m, by rw [mergeFold, mergeStep_vnone]; exact hm⟩
      · have haeq := mergeStep_some acc acc' k v hacc' hvn
        have hstk : ∀ w, getVal rest "stock" = some w → w ≠ PyVal.vnone →
            (pyAdd ((getVal acc' "stock").getD (PyVal.vint 0)) w).isSome = true := by
          intro w hw hwn
          by_cases hk : k = "stock"
          · exact absurd hw (by simp [getVal_eq_none_of_not_mem rest "stock" (hk ▸ hk_not)])
          · have hne : ¬ "stock" = k := fun hh => hk hh.symm
            have hbase : getVal acc' "stock" = getVal acc "stock" := by
              rw [haeq, getVal_setVal]
              simp [hne]
            rw [hbase]
            exact hstock w (by simp [getVal, hk, hw]) hwn
        have hatt : ∀ l, getVal rest "attributes" = some (PyVal.vdict l) →
            ∃ m', (getVal acc' "attributes").getD (PyVal.vdict []) = PyVal.vdict m' := by
          intro l hl
          by_cases hk : k = "attributes"
          · exact absurd hl (by simp [getVal_eq_none_of_not_mem rest "attributes" (hk ▸ hk_not)])
          · have hne : ¬ "attributes" = k := fun hh => hk hh.symm
            have hbase : getVal acc' "attributes" = getVal acc "attributes" := by
              rw [haeq, getVal_setVal]
              simp [hne]
            rw [hbase]
            exact hattr l (by simp [getVal, hk, hl])
        obtain ⟨m, hm⟩ := ih acc' hnd' hstk hatt
        refine ⟨m, ?_⟩
        rw [mergeFold, hacc']
        exact hm

/-- Lookup in the newer dict first, then in the older one: the
specification of `{**older, **newer}`. -/
def lookupEither (newer older : List (String × PyVal)) (q : String) : Option PyVal :=
  match getVal newer q with
  | some v => some v
  | none => getVal older q

theorem getVal_attrUnion (l : List (String × PyVal)) : ∀ (m : List (String × PyVal)),
    (l.map Prod.fst).Nodup → ∀ q,
    getVal (attrUnion m l) q = lookupEither l m q := by
  induction l with
  | nil =>
      intro m _ q
      simp [attrUnion, lookupEither, getVal]
  | cons e rest ih =>
      intro m hnd q
      obtain ⟨k, v⟩ := e
      simp only [List.map_cons, List.nodup_cons] at hnd
      obtain ⟨hk_not, hnd'⟩ := hnd
      have hstep : attrUnion m ((k, v) :: rest) = attrUnion (setVal m k v) rest := rfl
      rw [hstep, ih (setVal m k v) hnd' q]
      by_cases hqk : q = k
      · subst hqk
        have hrest : getVal rest q = none := getVal_eq_none_of_not_mem rest q hk_not
        simp [lookupEither, hrest, getVal, getVal_setVal]
      · have hne : ¬ k = q := fun hh => hqk hh.symm
        simp only [lookupEither, getVal, hne, if_neg hne]
        rw [getVal_setVal]
        simp [hqk]

theorem keepLatest_go (key_field a : String) :
    ∀ (rs : List PRecord) (cur : PRecord),
    (∀ r ∈ rs, getVal r key_field = some (PyVal.vstr a)) →
    handleDupGo DupStrategy.keep_latest key_field [(PyVal.vstr a, cur)] rs =
      some [rs.getLastD cur] := by
  intro rs
  induction rs with
  | nil =>
      intro cur _
      rfl
  | cons r rest ih =>
      intro cur hall
      have hr := hall r (List.mem_cons_self r rest)
      have hkey : keyOf key_field r = some (PyVal.vstr a) := by simp [keyOf, hr]
      have hhk : seenHasKey [(PyVal.vstr a, cur)] (PyVal.vstr a) = true := by
        simp [seenHasKey, PyVal.beq]
      have hup : seenUpdate [(PyVal.vstr a, cur)] (PyVal.vstr a) r = [(PyVal.vstr a, r)] := by
        simp [seenUpdate, PyVal.beq]
      rw [handleDupGo, hkey]
      simp only [hhk, if_pos rfl, hup]
      rw [ih r (fun x hx => hall x (List.mem_cons_of_mem r hx))]
      cases rest with
      | nil => rfl
      | cons y ys => simp [List.getLastD, List.getLast?_cons_cons]

/-- C4: on a list of records that all carry the same (string) sku,
`keep_latest` returns exactly the last record; on two such records with
integer stocks and dict attributes, `merge` returns a single record whose
stock is the sum, whose attributes are the union with the later record's
keys winning, in which every other non-`None` later value replaces the
older one, and in which a `None` or absent later value leaves the older
value untouched. -/
theorem claim_c4_handle_duplicates :
    (∀ (a : String) (r0 : PRecord) (rs : List PRecord),
      (∀ r ∈ r0 :: rs, getVal r "sku" = some (PyVal.vstr a)) →
      handle_duplicates DupStrategy.keep_latest "sku" (r0 :: rs) = some [rs.getLastD r0]) ∧
    (∀ (a : String) (r1 r2 : PRecord) (s1 s2 : Int) (A1 A2 : List (String × PyVal)),
      getVal r1 "sku" = some (PyVal.vstr a) →
      getVal r2 "sku" = some (PyVal.vstr a) →
      (r2.map Prod.fst).Nodup →
      getVal r1 "stock" = some (PyVal.vint s1) →
      getVal r2 "stock" = some (PyVal.vint s2) →
      getVal r1 "attributes" = some (PyVal.vdict A1) →
      getVal r2 "attributes" = some (PyVal.vdict A2) →
      (A2.map Prod.fst).Nodup →
      ∃ m, handle_duplicates DupStrategy.merge "sku" [r1, r2] = some [m] ∧
        getVal m "stock" = some (PyVal.vint (s1 + s2)) ∧
        getVal m "attributes" = some (PyVal.vdict (attrUnion A1 A2)) ∧
        (∀ q, getVal (attrUnion A1 A2) q = lookupEither A2 A1 q) ∧
        (∀ f v, f ≠ "stock" → f ≠ "attributes" → getVal r2 f = some v →
          v ≠ PyVal.vnone → getVal m f = some v) ∧
        (∀ f, getVal r2 f = some PyVal.vnone → getVal m f = getVal r1 f) ∧
        (∀ f, getVal r2 f = none → getVal m f = getVal r1 f)) := by
  constructor
  · intro a r0 rs hall
    have h0 := hall r0 (List.mem_cons_self r0 rs)
    have hkey : keyOf "sku" r0 = some (PyVal.vstr a) := by simp [keyOf, h0]
    rw [handle_duplicates, handleDupGo, hkey]
    dsimp only
    rw [if_neg (show ¬ (seenHasKey [] (PyVal.vstr a) = true) by simp [seenHasKey])]
    rw [List.nil_append]
    exact keepLatest_go "sku" a rs r0 (fun x hx => hall x (List.mem_cons_of_mem r0 hx))
  · intro a r1 r2 s1 s2 A1 A2 h1s h2s hnd h1k h2k h1a h2a hndA
    have hsucc : ∃ m, mergeFold r1 r2 = some m := by
      apply mergeFold_success r2 r1 hnd
      · intro v hv hvn
        rw [h2k] at hv
        cases hv
        rw [h1k]
        simp [pyAdd]
      · intro l hl
        rw [h2a] at hl
        cases hl
        rw [h1a]
        exact ⟨A1, rfl⟩
    obtain ⟨m, hm⟩ := hsucc
    have hchar := mergeFold_char r2 r1 m hnd hm
    have hkey1 : keyOf "sku" r1 = some (PyVal.vstr a) := by simp [keyOf, h1s]
    have hkey2 : keyOf "sku" r2 = some (PyVal.vstr a) := by simp [keyOf, h2s]
    have hrun : handle_duplicates DupStrategy.merge "sku" [r1, r2] = some [m] := by
      rw [handle_duplicates, handleDupGo, hkey1]
      dsimp only
      rw [if_neg (show ¬ (seenHasKey [] (PyVal.vstr a) = true) by simp [seenHasKey])]
      rw [List.nil_append]
      rw [handleDupGo, hkey2]
      simp [seenHasKey, seenGet, seenUpdate, PyVal.beq, default_merge, hm, handleDupGo]
    refine ⟨m, hrun, ?_, ?_, getVal_attrUnion A2 A1 hndA, ?_, ?_, ?_⟩
    · have hc := hchar "stock"
      rw [h2k, mergeSpec_some_ne _ _ _ (by simp)] at hc
      rw [hc]
      simp [combine, h1k, pyAdd]
    · have hc := hchar "attributes"
      rw [h2a, mergeSpec_some_ne _ _ _ (by simp)] at hc
      rw [hc]
      simp [combine, h1a]
    · intro f v hf1 hf2 hv hvn
      have hc := hchar f
      rw [hv, mergeSpec_some_ne _ _ _ hvn] at hc
      rw [hc]
      simp [combine, hf1, hf2]
    · intro f hv
      have hc := hchar f
      rw [hv] at hc
      simpa [mergeSpec] using hc
    · intro f hv
      have hc := hchar f
      rw [hv] at hc
      simpa [mergeSpec] using hc

/-- Witness record for C4: sku `A`, stock 10. -/
def c4r1 : PRecord :=
  [("sku", PyVal.vstr "A"), ("stock", PyVal.vint 10), ("attributes", PyVal.vdict [])]

/-- Witness record for C4: sku `A`, stock 20. -/
def c4r2 : PRecord :=
  [("sku", PyVal.vstr "A"), ("stock", PyVal.vint 20), ("attributes", PyVal.vdict [])]

/-- Witness for C4: on the concrete duplicate pair, `keep_latest` keeps
the later record (stock 20) and `merge` produces one record with stock
10 + 20 = 30. -/
theorem claim_c4_witness :
    handle_duplicates DupStrategy.keep_latest "sku" [c4r1, c4r2] = some [c4r2] ∧
    ∃ m, handle_duplicates DupStrategy.merge "sku" [c4r1, c4r2] = some [m] ∧
      getVal m "stock" = some (PyVal.vint 30) := by
  constructor
  · have h := claim_c4_handle_duplicates.1 "A" c4r1 [c4r2]
      (by
        intro r hr
        simp only [List.mem_cons, List.mem_singleton] at hr
        rcases hr with h | h | h
        · subst h; rfl
        · subst h; rfl
        · cases h)
    simpa using h
  · obtain ⟨m, h1, h2, _⟩ := claim_c4_handle_duplicates.2 "A" c4r1 c4r2 10 20 [] []
      rfl rfl (by simp [c4r2]) rfl rfl rfl rfl (by simp)
    exact ⟨m, h1, by simpa using h2⟩

/-- Model of `TextCleaner.clean_batch`
(src/transformers/cleaners.py lines 255-274): each record is passed to
`clean_product` inside a `try`; on an exception the raw record is appended
unchanged.  The per-record cleaner is abstracted as the fallible function
`f`, since the `try`/`except` wraps whatever its callee does. -/
def clean_batch (f : PRecord → Except String PRecord) : List PRecord → List PRecord
  | [] => []
  | p :: rest =>
    (match f p with
      | Except.ok c => c
      | Except.error _ => p) :: clean_batch f rest

/-- C10: `clean_batch` maps every input record to exactly one output
record in order (so the lengths agree) and never drops a record: when the
per-record cleaner fails on a record, that record appears in the output
unchanged. -/
theorem claim_c10_clean_batch (f : PRecord → Except String PRecord)
    (ps : List PRecord) :
    (clean_batch f ps).length = ps.length ∧
    clean_batch f ps = ps.map (fun p =>
      match f p with
      | Except.ok c => c
      | Except.error _ => p) ∧
    (∀ p ∈ ps, ∀ e, f p = Except.error e → p ∈ clean_batch f ps) := by
  have hmap : clean_batch f ps = ps.map (fun p =>
      match f p with
      | Except.ok c => c
      | Except.error _ => p) := by
    induction ps with
    | nil => rfl
    | cons p rest ih => simp [clean_batch, ih]
  refine ⟨by rw [hmap]; simp, hmap, ?_⟩
  intro p hp e he
  rw [hmap]
  have hpe : (match f p with
      | Except.ok c => c
      | Except.error _ => p) = p := by rw [he]
  exact hpe ▸ List.mem_map_of_mem _ hp

/-- Witness cleaner for C10: fails exactly on records carrying a `bad`
key. -/
def c10f (p : PRecord) : Except String PRecord :=
  match getVal p "bad" with
  | some _ => Except.error "boom"
  | none => Except.ok (setVal p "name" (PyVal.vstr "cleaned"))

/-- Witness record for C10 on which the cleaner fails. -/
def c10bad : PRecord := [("sku", PyVal.vstr "B"), ("bad", PyVal.vint 1)]

/-- Witness record for C10 on which the cleaner succeeds. -/
def c10good : PRecord := [("sku", PyVal.vstr "G")]

/-- Witness for C10: on a concrete batch with one failing record, the
output has one record per input and the failing record appears unchanged. -/
theorem claim_c10_witness :
    (clean_batch c10f [c10good, c10bad]).length = 2 ∧
    c10bad ∈ clean_batch c10f [c10good, c10bad] :=
  ⟨(claim_c10_clean_batch c10f [c10good, c10bad]).1,
    (claim_c10_clean_batch c10f [c10good, c10bad]).2.2 c10bad (by simp) "boom" rfl⟩

/-- Concrete product with sku `A` for the C8 example. -/
def c8pA : ProductDB :=
  { id := "1", sku := "A", name := "a", description := none, category := "c",
    price := mkRat 1 1, stock := 0, unit := "unidad", attributes := [] }

/-- Concrete product with sku `B` for the C8 example. -/
def c8pB : ProductDB :=
  { id := "2", sku := "B", name := "b", description := none, category := "c",
    price := mkRat 1 1, stock := 0, unit := "unidad", attributes := [] }

/-- Model of `PostgresToQdrantPipeline.sync_deletions`
(src/pipelines/postgres_to_qdrant.py lines 275-301): build the sets of
PostgreSQL skus and Qdrant skus (the keys of the hash map), delete every
sku of the difference from Qdrant and count the deletions.  Python
iterates a set in unspecified order; the model iterates the deduplicated
Qdrant key list in first-occurrence order.  The first component is the
list of delete-by-sku calls issued, the second the returned count. -/
def sync_deletions (pg_products : List ProductDB)
    (qdrant_hashes : List (String × String)) : List String × Nat :=
  let pg_skus := (pg_products.map (·.sku)).dedup
  let to_delete := ((qdrant_hashes.map Prod.fst).dedup).filter
    (fun s => ! pg_skus.contains s)
  to_delete.foldl (fun acc sku => (acc.1 ++ [sku], acc.2 + 1)) ([], 0)

theorem sync_foldl_spec (l : List String) : ∀ (init : List String × Nat),
    l.foldl (fun acc sku => (acc.1 ++ [sku], acc.2 + 1)) init =
      (init.1 ++ l, init.2 + l.length) := by
  induction l with
  | nil => intro init; simp
  | cons s rest ih =>
      intro init
      rw [List.foldl_cons, ih]
      simp
      omega

/-- C8: the deletion sync deletes exactly the skus present in the vector
index but absent from PostgreSQL and returns their number: the returned
count is the cardinality of the set difference, a sku is deleted iff it
lies in the difference, and on the concrete example of the claim
(PostgreSQL `{A, B}`, index `{A, B, C}`) exactly `C` is deleted with
count 1. -/
theorem claim_c8_sync_deletions (pg : List ProductDB)
    (qh : List (String × String)) :
    (sync_deletions pg qh).2 =
      ((qh.map Prod.fst).toFinset \ (pg.map (·.sku)).toFinset).card ∧
    (∀ s, s ∈ (sync_deletions pg qh).1 ↔
      s ∈ (qh.map Prod.fst).toFinset \ (pg.map (·.sku)).toFinset) ∧
    sync_deletions [c8pA, c8pB] [("A", "h1"), ("B", "h2"), ("C", "h3")] =
      (["C"], 1) := by
  have hfold := sync_foldl_spec (((qh.map Prod.fst).dedup).filter
    (fun s => ! ((pg.map (·.sku)).dedup).contains s)) ([], 0)
  have hdef : sync_deletions pg qh =
      ((((qh.map Prod.fst).dedup).filter
        (fun s => ! ((pg.map (·.sku)).dedup).contains s)),
        (((qh.map Prod.fst).dedup).filter
          (fun s => ! ((pg.map (·.sku)).dedup).contains s)).length) := by
    rw [sync_deletions, hfold]
    simp
  have hmem : ∀ s, (s ∈ ((qh.map Prod.fst).dedup).filter
      (fun t => ! ((pg.map (·.sku)).dedup).contains t)) ↔
      s ∈ (qh.map Prod.fst).toFinset \ (pg.map (·.sku)).toFinset := by
    intro s
    simp [List.mem_filter, List.mem_dedup, Finset.mem_sdiff, List.mem_toFinset]
  refine ⟨?_, ?_, by decide⟩
  · rw [hdef]
    have hnd : (((qh.map Prod.fst).dedup).filter
        (fun s => ! ((pg.map (·.sku)).dedup).contains s)).Nodup :=
      (List.nodup_dedup _).filter _
    have hset : (((qh.map Prod.fst).dedup).filter
        (fun s => ! ((pg.map (·.sku)).dedup).contains s)).toFinset =
        (qh.map Prod.fst).toFinset \ (pg.map (·.sku)).toFinset := by
      apply Finset.ext
      intro s
      rw [List.mem_toFinset]
      exact hmem s
    calc (((qh.map Prod.fst).dedup).filter
        (fun s => ! ((pg.map (·.sku)).dedup).contains s)).length
        = (((qh.map Prod.fst).dedup).filter
            (fun s => ! ((pg.map (·.sku)).dedup).contains s)).toFinset.card := by
          rw [List.toFinset_card_of_nodup hnd]
      _ = ((qh.map Prod.fst).toFinset \ (pg.map (·.sku)).toFinset).card := by
          rw [hset]
  · intro s
    rw [hdef]
    exact hmem s

/-- Python truthiness of the embedded values (`if not point_id`). -/
def pyTruthy : PyVal → Bool
  | .vnone => false
  | .vint n => n != 0
  | .vstr s => ! (s == "")
  | .vdec q => q != 0
  | .vdict l => ! l.isEmpty
  | .vlist l => ! l.isEmpty

/-- A stored point of the vector index: its vector and its payload. -/
structure QdrantPoint where
  vector : List Rat
  payload : List (String × PyVal)

/-- Write operations issued to the Qdrant client by the loader:
`set_payload` merges the given payload keys into a point's payload;
`upsert` replaces a point wholesale. -/
inductive QdrantOp where
  | setPayload (pointId : PyVal) (payload : List (String × PyVal)) : QdrantOp
  | upsertPoint (pointId : PyVal) (vector : List Rat)
      (payload : List (String × PyVal)) : QdrantOp

/-- Model of `QdrantLoader.update_metadata`
(src/loaders/qdrant_loader.py lines 189-222): nothing is written when both
arguments are absent; otherwise one `set_payload` call whose payload holds
exactly the present ones of `price` and `stock`. -/
def update_metadata (point_id : String) (price : Option Rat) (stock : Option Int) :
    List QdrantOp :=
  if price.isNone && stock.isNone then []
  else
    let payload :=
      (match price with
        | some p => [("price", PyVal.vdec p)]
        | none => []) ++
      (match stock with
        | some st => [("stock", PyVal.vint st)]
        | none => [])
    [QdrantOp.setPayload (PyVal.vstr point_id) payload]

/-- One iteration of `QdrantLoader.update_metadata_batch`
(src/loaders/qdrant_loader.py lines 240-257): skip the update when
`point_id` is missing or falsy; build the payload from the present
`price`/`stock` keys; when the payload is non-empty issue one
`set_payload` call and count it. -/
def batchStep (acc : List QdrantOp × Nat) (u : PRecord) : List QdrantOp × Nat :=
  match getVal u "point_id" with
  | none => acc
  | some pid =>
    if pyTruthy pid then
      let payload :=
        (match getVal u "price" with
          | some v => [("price", v)]
          | none => []) ++
        (match getVal u "stock" with
          | some v => [("stock", v)]
          | none => [])
      if payload.isEmpty then acc
      else (acc.1 ++ [QdrantOp.setPayload pid payload], acc.2 + 1)
    else acc

/-- Model of `QdrantLoader.update_metadata_batch`
(src/loaders/qdrant_loader.py lines 224-260): fold `batchStep` over the
updates.  Returns the operations issued and the returned count. -/
def update_metadata_batch (updates : List PRecord) : List QdrantOp × Nat :=
  updates.foldl batchStep ([], 0)

/-- Qdrant `set_payload` semantics on one point: the given keys are merged
into the stored payload, everything else is untouched. -/
def applyPayload (pt : QdrantPoint) (payload : List (String × PyVal)) : QdrantPoint :=
  { pt with payload := payload.foldl (fun acc kv => setVal acc kv.1 kv.2) pt.payload }

/-- Effect of one write operation on the whole store (points indexed by
their id). -/
def applyOp (store : PyVal → QdrantPoint) : QdrantOp → (PyVal → QdrantPoint)
  | QdrantOp.setPayload pid pl =>
      fun q => if PyVal.beq q pid then applyPayload (store q) pl else store q
  | QdrantOp.upsertPoint pid vec pl =>
      fun q => if PyVal.beq q pid then ⟨vec, pl⟩ else store q

/-- Effect of a sequence of write operations. -/
def applyOps (store : PyVal → QdrantPoint) (ops : List QdrantOp) : PyVal → QdrantPoint :=
  ops.foldl applyOp store

/-- An operation that is a `set_payload` touching only the `price` and
`stock` payload keys. -/
def metadataOnlyOp (op : QdrantOp) : Prop :=
  ∃ p pl, op = QdrantOp.setPayload p pl ∧ pl ≠ [] ∧
    ∀ kv ∈ pl, kv.1 = "price" ∨ kv.1 = "stock"

theorem getVal_foldl_setVal : ∀ (pl : List (String × PyVal)),
    (∀ kv ∈ pl, kv.1 = "price" ∨ kv.1 = "stock") →
    ∀ (payload : List (String × PyVal)),
    getVal (pl.foldl (fun acc kv => setVal acc kv.1 kv.2) payload) "text_hash" =
      getVal payload "text_hash" := by
  intro pl
  induction pl with
  | nil =>
      intro _ payload
      rfl
  | cons kv rest ih =>
      intro hpl payload
      rw [List.foldl_cons]
      have hkv := hpl kv (List.mem_cons_self kv rest)
      have hne : ¬ ("text_hash" : String) = kv.1 := by
        rcases hkv with h | h <;> rw [h] <;> decide
      have hstep : getVal (setVal payload kv.1 kv.2) "text_hash" =
          getVal payload "text_hash" := by
        rw [getVal_setVal]
        simp [hne]
      rw [ih (fun x hx => hpl x (List.mem_cons_of_mem kv hx))
        (setVal payload kv.1 kv.2), hstep]

theorem applyPayload_frame (pt : QdrantPoint) (pl : List (String × PyVal))
    (hpl : ∀ kv ∈ pl, kv.1 = "price" ∨ kv.1 = "stock") :
    (applyPayload pt pl).vector = pt.vector ∧
    getVal (applyPayload pt pl).payload "text_hash" = getVal pt.payload "text_hash" :=
  ⟨rfl, getVal_foldl_setVal pl hpl pt.payload⟩

theorem applyOps_frame (ops : List QdrantOp) : ∀ (store : PyVal → QdrantPoint),
    (∀ op ∈ ops, metadataOnlyOp op) → ∀ q,
    (applyOps store ops q).vector = (store q).vector ∧
    getVal (applyOps store ops q).payload "text_hash" =
      getVal (store q).payload "text_hash" := by
  induction ops with
  | nil => intro store _ q; exact ⟨rfl, rfl⟩
  | cons op rest ih =>
      intro store hops q
      obtain ⟨p, pl, hop, hne, hpl⟩ := hops op (List.mem_cons_self op rest)
      subst hop
      have hstep : ∀ r, (applyOp store (QdrantOp.setPayload p pl) r).vector =
          (store r).vector ∧
          getVal (applyOp store (QdrantOp.setPayload p pl) r).payload "text_hash" =
            getVal (store r).payload "text_hash" := by
        intro r
        rw [applyOp]
        by_cases hb : PyVal.beq r p = true
        · simp only [hb, if_pos rfl]
          exact applyPayload_frame (store r) pl hpl
        · simp [hb]
      have hrest := ih (applyOp store (QdrantOp.setPayload p pl))
        (fun x hx => hops x (List.mem_cons_of_mem _ hx)) q
      refine ⟨?_, ?_⟩
      · rw [show applyOps store (QdrantOp.setPayload p pl :: rest) q =
            applyOps (applyOp store (QdrantOp.setPayload p pl)) rest q from rfl]
        rw [hrest.1, (hstep q).1]
      · rw [show applyOps store (QdrantOp.setPayload p pl :: rest) q =
            applyOps (applyOp store (QdrantOp.setPayload p pl)) rest q from rfl]
        rw [hrest.2, (hstep q).2]

theorem update_metadata_ops (point_id : String) (price : Option Rat)
    (stock : Option Int) :
    ∀ op ∈ update_metadata point_id price stock, metadataOnlyOp op := by
  intro op hop
  simp only [update_metadata] at hop
  by_cases hc : (price.isNone && stock.isNone) = true
  · rw [if_pos hc] at hop
    exact absurd hop (List.not_mem_nil op)
  · rw [if_neg hc] at hop
    simp only [List.mem_singleton] at hop
    subst hop
    refine ⟨_, _, rfl, ?_, ?_⟩
    · cases price <;> cases stock <;> simp_all
    · intro kv hkv
      cases price <;> cases stock <;> simp_all [List.mem_append] <;>
        rcases hkv with h | h <;> simp_all

theorem batchStep_ops (acc : List QdrantOp × Nat) (u : PRecord) :
    ∀ op ∈ (batchStep acc u).1, op ∈ acc.1 ∨ metadataOnlyOp op := by
  intro op hop
  simp only [batchStep] at hop
  cases hpid : getVal u "point_id" with
  | none =>
      rw [hpid] at hop
      exact Or.inl hop
  | some pid =>
      rw [hpid] at hop
      dsimp only at hop
      by_cases ht : pyTruthy pid = true
      · rw [if_pos ht] at hop
        by_cases hemp : ((match getVal u "price" with
            | some v => [("price", v)]
            | none => []) ++
          (match getVal u "stock" with
            | some v => [("stock", v)]
            | none => [])).isEmpty = true
        · rw [if_pos hemp] at hop
          exact Or.inl hop
        · rw [if_neg hemp] at hop
          rw [List.mem_append] at hop
          rcases hop with hop | hop
          · exact Or.inl hop
          · rw [List.mem_singleton] at hop
            subst hop
            refine Or.inr ⟨_, _, rfl, by simpa using hemp, ?_⟩
            intro kv hkv
            rw [List.mem_append] at hkv
            rcases hkv with h | h
            · cases hgp : getVal u "price" <;> simp_all
            · cases hgs : getVal u "stock" <;> simp_all
      · rw [if_neg ht] at hop
        exact Or.inl hop

theorem update_metadata_batch_go (rest : List PRecord) :
    ∀ (init : List QdrantOp × Nat),
    (∀ op ∈ init.1, metadataOnlyOp op) →
    ∀ op ∈ (rest.foldl batchStep init).1, metadataOnlyOp op := by
  induction rest with
  | nil => intro init hinit; exact hinit
  | cons u tail ih =>
      intro init hinit
      rw [List.foldl_cons]
      apply ih
      intro op hop
      rcases batchStep_ops init u op hop with h | h
      · exact hinit op h
      · exact h

theorem update_metadata_batch_ops (updates : List PRecord) :
    ∀ op ∈ (update_metadata_batch updates).1, metadataOnlyOp op := by
  apply update_metadata_batch_go
  intro op hop
  exact absurd hop (List.not_mem_nil op)

/-- C5: a metadata update issues only `set_payload` operations whose
payload holds nothing beyond the `price` and `stock` keys (and no
operation at all when neither is given), so applying such an update to any
store leaves every point's vector and stored `text_hash` unchanged — a
metadata-only update can never appear as a content change on the next
run's hash comparison.  Both the single-point and the batch entry point
are covered. -/
theorem claim_c5_update_metadata :
    (∀ (point_id : String) (price : Option Rat) (stock : Option Int),
      ∀ op ∈ update_metadata point_id price stock, metadataOnlyOp op) ∧
    (∀ (point_id : String) (price : Option Rat) (stock : Option Int)
      (store : PyVal → QdrantPoint) (q : PyVal),
      (applyOps store (update_metadata point_id price stock) q).vector =
        (store q).vector ∧
      getVal (applyOps store (update_metadata point_id price stock) q).payload
        "text_hash" = getVal (store q).payload "text_hash") ∧
    (∀ updates, ∀ op ∈ (update_metadata_batch updates).1, metadataOnlyOp op) ∧
    (∀ updates (store : PyVal → QdrantPoint) (q : PyVal),
      (applyOps store (update_metadata_batch updates).1 q).vector =
        (store q).vector ∧
      getVal (applyOps store (update_metadata_batch updates).1 q).payload
        "text_hash" = getVal (store q).payload "text_hash") := by
  refine ⟨update_metadata_ops, ?_, update_metadata_batch_ops, ?_⟩
  · intro point_id price stock store q
    exact applyOps_frame (update_metadata point_id price stock) store
      (update_metadata_ops point_id price stock) q
  · intro updates store q
    exact applyOps_frame (update_metadata_batch updates).1 store
      (update_metadata_batch_ops updates) q

/-- Chunking `products[i : i + batch_size]` of the loop
`for i in range(0, len(products), batch_size)` in
`EmbeddingGenerator.generate_embeddings_batch`; meaningful for a positive
batch size (Python raises on step 0). -/
def chunksOf (bs : Nat) (l : List ProductDB) : List (List ProductDB) :=
  if hbs : bs = 0 then []
  else if hl : l.isEmpty then []
  else l.take bs :: chunksOf bs (l.drop bs)
termination_by l.length
decreasing_by
  have h1 : 0 < bs := Nat.pos_of_ne_zero hbs
  have h2 : 0 < l.length := by
    cases l with
    | nil => simp at hl
    | cons a t => simp
  simp only [List.length_drop]
  omega

/-- Model of `EmbeddingGenerator.build_embedding_text`
(src/embeddings/generator.py lines 87-131): name and category always,
description when non-empty, unit when non-empty and not the default,
then the string-valued attributes (non-blank) and the list-valued
attributes (truthy elements, stringified), all joined with `. `. -/
def build_embedding_text (p : ProductDB) : String :=
  let parts := ["Producto: " ++ p.name, "Categoría: " ++ p.category]
  let parts := parts ++
    (match p.description with
      | some d => if d = "" then [] else ["Descripción: " ++ d]
      | none => [])
  let parts := parts ++
    (if p.unit ≠ "" ∧ p.unit ≠ "unidad" then ["Unidad: " ++ p.unit] else [])
  let text_attrs := p.attributes.filterMap (fun kv =>
    match kv.2 with
    | PyVal.vstr sv => if trimStr sv = "" then none else some (kv.1 ++ ": " ++ sv)
    | PyVal.vlist lv =>
        let strs := (lv.filter pyTruthy).map pyStr
        if strs = [] then none
        else some (kv.1 ++ ": " ++ String.intercalate ", " strs)
    | _ => none)
  let parts := parts ++
    (if text_attrs = [] then [] else ["Características: " ++ String.intercalate "; " text_attrs])
  String.intercalate ". " parts

/-- Embedding of the Pydantic model `ProductEmbedding`
(src/models/product.py lines 158-169). -/
structure ProductEmbedding where
  id : String
  vector : List Rat
  sku : String
  product_id : String
  category : String
  price : Rat
  stock : Int
  text : String
  text_hash : String

/-- The `ProductEmbedding` built for one product and one vector inside
`generate_embeddings_batch` (src/embeddings/generator.py lines 232-245). -/
def mkEmbedding (p : ProductDB) (vec : List Rat) : ProductEmbedding :=
  { id := "product-" ++ p.id, vector := vec, sku := p.sku, product_id := p.id,
    category := p.category, price := p.price, stock := p.stock,
    text := build_embedding_text p, text_hash := compute_text_hash p }

/-- Records produced for one chunk: none when the provider call raises
(the `except` branch logs and continues), otherwise one record per
`zip(batch, embeddings, texts)` entry.  The provider is the oracle
`api`. -/
def chunkResult (api : List ProductDB → Option (List (List Rat)))
    (c : List ProductDB) : List ProductEmbedding :=
  match api c with
  | none => []
  | some embs => (c.zip embs).map (fun pe => mkEmbedding pe.1 pe.2)

/-- Model of `EmbeddingGenerator.generate_embeddings_batch`
(src/embeddings/generator.py lines 201-257): process the chunks in order,
appending each chunk's records to the running result; a failed chunk
contributes nothing and processing continues.  The inter-chunk sleep has
no observable effect in the model. -/
def generate_embeddings_batch (api : List ProductDB → Option (List (List Rat)))
    (batch_size : Nat) (products : List ProductDB) : List ProductEmbedding :=
  (chunksOf batch_size products).foldl (fun acc c => acc ++ chunkResult api c) []

theorem foldl_append_eq_join {α β : Type} (f : α → List β) (cs : List α) :
    ∀ (init : List β),
    cs.foldl (fun acc c => acc ++ f c) init = init ++ (cs.map f).flatten := by
  induction cs with
  | nil => intro init; simp
  | cons c rest ih =>
      intro init
      rw [List.foldl_cons, ih]
      simp

theorem chunksOf_flatten (bs : Nat) (hbs : 0 < bs) (l : List ProductDB) :
    (chunksOf bs l).flatten = l := by
  have hgen : ∀ (n : Nat) (l : List ProductDB), l.length ≤ n →
      (chunksOf bs l).flatten = l := by
    intro n
    induction n with
    | zero =>
        intro l hl
        have hnil : l = [] := List.eq_nil_of_length_eq_zero (Nat.le_zero.mp hl)
        subst hnil
        rw [chunksOf]
        simp
    | succ n ih =>
        intro l hl
        by_cases hnil : l = []
        · subst hnil
          rw [chunksOf]
          simp
        · rw [chunksOf, dif_neg (Nat.pos_iff_ne_zero.mp hbs),
            dif_neg (by simp [hnil])]
          rw [List.flatten_cons]
          rw [ih (l.drop bs) (by
            simp only [List.length_drop]
            have hlp : 0 < l.length := List.length_pos.mpr hnil
            omega)]
          exact List.take_append_drop bs l
  exact hgen l.length l le_rfl

theorem zip_mem_left {α β : Type} (p : α) : ∀ (c : List α) (v : List β),
    v.length = c.length → p ∈ c → ∃ w, (p, w) ∈ c.zip v := by
  intro c
  induction c with
  | nil => intro v _ hp; cases hp
  | cons a rest ih =>
      intro v hlen hp
      cases v with
      | nil => cases hlen
      | cons w ws =>
          rcases List.mem_cons.mp hp with h | h
          · subst h
            exact ⟨w, List.mem_cons_self _ _⟩
          · obtain ⟨w', hw'⟩ := ih ws (by simpa using hlen) h
            exact ⟨w', List.mem_cons_of_mem _ hw'⟩

/-- C6: chunked embedding generation is exactly the concatenation of the
per-chunk results: a chunk whose provider call fails contributes no record
(its products are skipped this run), a chunk whose call succeeds
contributes exactly one record per product of the chunk in order —
regardless of failures of other chunks, so processing continues after a
failure — and the total number of records never exceeds the number of
input products. -/
theorem claim_c6_generate_embeddings_batch
    (api : List ProductDB → Option (List (List Rat))) (bs : Nat)
    (products : List ProductDB) (hbs : 0 < bs)
    (hapi : ∀ c v, api c = some v → v.length = c.length) :
    generate_embeddings_batch api bs products =
      ((chunksOf bs products).map (chunkResult api)).flatten ∧
    (∀ c ∈ chunksOf bs products, api c = none → chunkResult api c = []) ∧
    (∀ c ∈ chunksOf bs products, ∀ v, api c = some v →
      chunkResult api c = (c.zip v).map (fun pe => mkEmbedding pe.1 pe.2) ∧
      (chunkResult api c).length = c.length ∧
      (∀ p ∈ c, ∃ e ∈ generate_embeddings_batch api bs products,
        e.product_id = p.id ∧ e.sku = p.sku ∧
        e.text_hash = compute_text_hash p)) ∧
    (generate_embeddings_batch api bs products).length ≤ products.length := by
  have hjoin : generate_embeddings_batch api bs products =
      ((chunksOf bs products).map (chunkResult api)).flatten := by
    rw [generate_embeddings_batch, foldl_append_eq_join]
    simp
  refine ⟨hjoin, ?_, ?_, ?_⟩
  · intro c _ hc
    rw [chunkResult, hc]
  · intro c hc v hv
    have h1 : chunkResult api c = (c.zip v).map (fun pe => mkEmbedding pe.1 pe.2) := by
      rw [chunkResult, hv]
    have h2 : (chunkResult api c).length = c.length := by
      rw [h1]
      rw [List.length_map, List.length_zip, hapi c v hv]
      exact Nat.min_self c.length
    refine ⟨h1, h2, ?_⟩
    intro p hp
    obtain ⟨w, hw⟩ := zip_mem_left p c v (hapi c v hv) hp
    refine ⟨mkEmbedding p w, ?_, rfl, rfl, rfl⟩
    rw [hjoin]
    rw [List.mem_flatten]
    refine ⟨chunkResult api c, List.mem_map_of_mem _ hc, ?_⟩
    rw [h1]
    exact List.mem_map_of_mem _ hw
  · rw [hjoin]
    have hlen : (((chunksOf bs products).map (chunkResult api)).flatten).length =
        (((chunksOf bs products).map (chunkResult api)).map List.length).sum := by
      rw [List.length_flatten]
    rw [hlen]
    have hbound : ∀ c ∈ chunksOf bs products,
        (chunkResult api c).length ≤ c.length := by
      intro c _
      rw [chunkResult]
      cases hv : api c with
      | none => simp
      | some v =>
          rw [List.length_map, List.length_zip]
          exact Nat.min_le_left _ _
    calc (((chunksOf bs products).map (chunkResult api)).map List.length).sum
        ≤ ((chunksOf bs products).map List.length).sum := by
          rw [List.map_map]
          apply List.sum_le_sum
          intro c hc
          exact hbound c hc
      _ = ((chunksOf bs products).flatten).length := by rw [List.length_flatten]
      _ = products.length := by rw [chunksOf_flatten bs hbs]

/-- Witness product for C6 whose chunk will fail. -/
def c6p1 : ProductDB :=
  { id := "p1", sku := "S1", name := "n1", description := none, category := "c",
    price := mkRat 1 1, stock := 0, unit := "unidad", attributes := [] }

/-- Witness product for C6 whose chunk will succeed. -/
def c6p2 : ProductDB :=
  { id := "p2", sku := "S2", name := "n2", description := none, category := "c",
    price := mkRat 1 1, stock := 0, unit := "unidad", attributes := [] }

/-- Witness provider oracle for C6: fails on any chunk containing product
`p1`, returns one vector per input otherwise. -/
def c6api (c : List ProductDB) : Option (List (List Rat)) :=
  if c.any (fun p => p.id == "p1") then none
  else some (c.map (fun _ => [mkRat 1 1]))

/-- Witness for C6: with batch size 1 and a provider failing on the first
chunk, the number of generated records never exceeds the number of
products. -/
theorem claim_c6_witness :
    (generate_embeddings_batch c6api 1 [c6p1, c6p2]).length ≤ 2 := by
  have happrox : ∀ c v, c6api c = some v → v.length = c.length := by
    intro c v hv
    rw [c6api] at hv
    by_cases hany : c.any (fun p => p.id == "p1") = true
    · rw [if_pos hany] at hv
      cases hv
    · rw [if_neg hany] at hv
      cases hv
      simp
  exact (claim_c6_generate_embeddings_batch c6api 1 [c6p1, c6p2]
    (by decide) happrox).2.2.2

/-- Python substring test `needle in haystack`. -/
def substrContains (needle haystack : String) : Bool :=
  haystack.toList.tails.any (fun t => needle.toList.isPrefixOf t)

/-- Constructor arguments of `ProductNormalizer`
(src/transformers/normalizers.py lines 115-137) with the source defaults;
`category_mapping` is the injected mapping (the source default is the
90-entry clothing table `DEFAULT_CATEGORY_MAPPING`). -/
structure NormalizerConfig where
  category_mapping : List (String × String)
  default_category : String := "otros"
  price_decimals : Nat := 2
  price_multiplier : Rat := mkRat 1 1
  duplicate_strategy : DupStrategy := DupStrategy.keep_latest

/-- Model of `ProductNormalizer.normalize_category`
(src/transformers/normalizers.py lines 139-166): falsy input → default;
exact lookup; then first substring match in table order; then default. -/
def normalize_category (cfg : NormalizerConfig) (category : PyVal) : String :=
  if ! pyTruthy category then cfg.default_category
  else
    let category_lower := (trimStr (pyStr category)).toLower
    match cfg.category_mapping.find? (fun kv => kv.1 == category_lower) with
    | some kv => kv.2
    | none =>
      match cfg.category_mapping.find? (fun kv => substrContains kv.1 category_lower) with
      | some kv => kv.2
      | none => cfg.default_category

/-- Model of `ProductNormalizer.normalize_product`
(src/transformers/normalizers.py lines 214-241): normalize the category
and price fields when present, and coerce stock to a non-negative integer
(0 on failure). -/
def normalize_product (cfg : NormalizerConfig) (p : PRecord) : PRecord :=
  let p1 := match getVal p "category" with
    | some v => setVal p "category" (PyVal.vstr (normalize_category cfg v))
    | none => p
  let p2 := match getVal p1 "price" with
    | some v => setVal p1 "price"
        (PyVal.vdec (normalize_price cfg.price_multiplier cfg.price_decimals v))
    | none => p1
  match getVal p2 "stock" with
  | some v => setVal p2 "stock" (PyVal.vint (max 0 ((parseStockVal v).getD 0)))
  | none => p2

/-- Model of `ProductNormalizer.normalize_batch`
(src/transformers/normalizers.py lines 328-351). -/
def normalize_batch (cfg : NormalizerConfig) (products : List PRecord)
    (handle_dup : Bool) : Option (List PRecord) :=
  let normalized := products.map (normalize_product cfg)
  if handle_dup then handle_duplicates cfg.duplicate_strategy "sku" normalized
  else some normalized

/-- Model of `ProductValidator.validate_batch`
(src/transformers/validators.py lines 207-249): split into accepted and
rejected records; with `skip_invalid = false` rejected records are also
kept in the accepted list. -/
def validate_batch (cfg : ValidatorConfig) (products : List PRecord)
    (skip_invalid : Bool) : List PRecord × List (PRecord × ValidationResult) :=
  products.foldl
    (fun acc p =>
      let r := validate cfg p
      if r.is_valid then (acc.1 ++ [p], acc.2)
      else if skip_invalid then (acc.1, acc.2 ++ [(p, r)])
      else (acc.1 ++ [p], acc.2 ++ [(p, r)]))
    ([], [])

/-- Embedding of the dataclass `PipelineResult`
(src/pipelines/api_to_postgres.py lines 19-51); the wall-clock timestamps
are not modelled. -/
structure PipelineResult where
  success : Bool
  extracted : Nat := 0
  validated : Nat := 0
  cleaned : Nat := 0
  normalized : Nat := 0
  inserted : Nat := 0
  updated : Nat := 0
  errors : List String := []
  warnings : List String := []

/-- Python `product.get("sku", "UNKNOWN")` rendered into an error tag. -/
def skuTag (p : PRecord) : String :=
  match getVal p "sku" with
  | some v => pyStr v
  | none => "UNKNOWN"

/-- Model of `APIToPostgresPipeline.run`
(src/pipelines/api_to_postgres.py lines 80-178).  External effects are
oracles: `fetch` is the extraction result (error = exception raised),
`upsert` returns `(inserted, updated, load_errors)` or raises;
`cleanFn` is the per-record cleaner passed to `clean_batch`.  Every
exception — extraction, a merge `TypeError` inside normalization, or the
loader — is caught by the outer `except` and becomes a failed result with
that single error, exactly as in the source. -/
def api_to_postgres_run (vcfg : ValidatorConfig) (ncfg : NormalizerConfig)
    (cleanFn : PRecord → Except String PRecord)
    (fetch : Except String (List PRecord))
    (upsert : List PRecord → Except String (Nat × Nat × List String))
    (skip_invalid handle_dup : Bool) : PipelineResult :=
  match fetch with
  | Except.error e => { success := false, errors := [e] }
  | Except.ok raw =>
    if raw.isEmpty then
      { success := true, extracted := 0, warnings := ["No products found in API"] }
    else
      let vres := validate_batch vcfg raw skip_invalid
      let errors1 := (vres.2.map (fun pr =>
        pr.2.errors.map (fun er => "[" ++ skuTag pr.1 ++ "] " ++ er.message))).flatten
      let cleaned := clean_batch cleanFn vres.1
      match normalize_batch ncfg cleaned handle_dup with
      | none => { success := false, errors := ["TypeError in merge"] }
      | some normalizedP =>
        match upsert normalizedP with
        | Except.error e => { success := false, errors := [e] }
        | Except.ok (ins, upd, load_errors) =>
          let errors := errors1 ++ load_errors.map (fun e => "Load error: " ++ e)
          { success := errors.isEmpty, extracted := raw.length,
            validated := vres.1.length, cleaned := cleaned.length,
            normalized := normalizedP.length, inserted := ins, updated := upd,
            errors := errors, warnings := [] }

/-- Embedding of the dataclass `EmbeddingPipelineResult`
(src/pipelines/postgres_to_qdrant.py lines 18-46); timestamps not
modelled. -/
structure EmbeddingPipelineResult where
  success : Bool
  total_products : Nat := 0
  products_needing_update : Nat := 0
  embeddings_generated : Nat := 0
  embeddings_upserted : Nat := 0
  metadata_only_updates : Nat := 0
  errors : List String := []

/-- Model of `PostgresToQdrantPipeline.run_for_products`
(src/pipelines/postgres_to_qdrant.py lines 192-273).  `getBySku` is the
PostgreSQL lookup, `hashes` the stored hash map, `api` the embedding
provider, `upsert` the Qdrant batch upsert (error = exception, caught by
the outer `except`).  Note the no-products branch: it returns
`success = True` together with a non-empty error list. -/
def run_for_products (getBySku : String → Option ProductDB)
    (hashes : String → Option String)
    (api : List ProductDB → Option (List (List Rat)))
    (upsert : List ProductEmbedding → Except String Nat)
    (batch_size : Nat) (skus : List String) (force_regenerate : Bool) :
    EmbeddingPipelineResult :=
  let products := skus.filterMap getBySku
  if products.isEmpty then
    { success := true, total_products := 0,
      errors := ["No products found for SKUs"] }
  else
    let products_to_embed := products.filter
      (fun p => force_regenerate || should_regenerate p (hashes p.sku))
    if products_to_embed.isEmpty then
      { success := true, total_products := products.length,
        products_needing_update := 0 }
    else
      let embeddings := generate_embeddings_batch api batch_size products_to_embed
      match upsert embeddings with
      | Except.error e => { success := false, errors := [e] }
      | Except.ok upserted =>
        { success := true, total_products := products.length,
          products_needing_update := products_to_embed.length,
          embeddings_generated := embeddings.length,
          embeddings_upserted := upserted }

/-- C7 (amended): for `APIToPostgresPipeline.run` the returned result has
`success = true` exactly when its error list is empty, and every modelled
exception is converted into a failed result rather than propagated; but
the error list is not free of by-design skips: a record skipped by
validation contributes its messages to it (see the counterexample), and
`run_for_products` returns `success = true` together with a non-empty
error list when no products match the requested skus, so "success iff no
errors" fails there. -/
theorem claim_c7_pipeline_success :
    (∀ (vcfg : ValidatorConfig) (ncfg : NormalizerConfig)
      (cleanFn : PRecord → Except String PRecord)
      (fetch : Except String (List PRecord))
      (upsert : List PRecord → Except String (Nat × Nat × List String))
      (skip_invalid handle_dup : Bool),
      ((api_to_postgres_run vcfg ncfg cleanFn fetch upsert skip_invalid
        handle_dup).success = true ↔
      (api_to_postgres_run vcfg ncfg cleanFn fetch upsert skip_invalid
        handle_dup).errors = [])) ∧
    (∀ (getBySku : String → Option ProductDB) (hashes : String → Option String)
      (api : List ProductDB → Option (List (List Rat)))
      (upsert : List ProductEmbedding → Except String Nat)
      (batch_size : Nat) (skus : List String) (force_regenerate : Bool),
      skus.filterMap getBySku = [] →
      (run_for_products getBySku hashes api upsert batch_size skus
        force_regenerate).success = true ∧
      (run_for_products getBySku hashes api upsert batch_size skus
        force_regenerate).errors ≠ []) := by
  constructor
  · intro vcfg ncfg cleanFn fetch upsert skip_invalid handle_dup
    rw [api_to_postgres_run.eq_def]
    rcases fetch with e | raw
    · simp
    · dsimp only
      by_cases hraw : raw.isEmpty = true
      · simp [hraw]
      · rw [if_neg hraw]
        cases hnorm : normalize_batch ncfg
            (clean_batch cleanFn (validate_batch vcfg raw skip_invalid).1)
            handle_dup with
        | none => simp [hnorm]
        | some normalizedP =>
            cases hup : upsert normalizedP with
            | error e => simp [hup]
            | ok t =>
                obtain ⟨ins, upd, load_errors⟩ := t
                simp [hup, List.isEmpty_iff]
  · intro getBySku hashes api upsert batch_size skus force hempty
    rw [run_for_products]
    simp [hempty]

/-- Concrete invalid record (missing sku) for the C7 counterexample. -/
def c7invalid : PRecord :=
  [("name", PyVal.vstr "X"), ("category", PyVal.vstr "c"),
    ("price", PyVal.vint 1), ("stock", PyVal.vint 1)]

/-- Empty-table normalizer configuration for the C7 counterexample. -/
def c7ncfg : NormalizerConfig := { category_mapping := [] }

/-- Counterexample for C7: `run_for_products` on a sku with no matching
product reports `success = true` with a non-empty error list, so success
is not equivalent to an empty error list; and a batch whose only record is
skipped by validation — a skip by design — yields `success = false`
because the validation messages land in the error list. -/
theorem claim_c7_counterexample :
    (run_for_products (fun _ => none) (fun _ => none) (fun _ => none)
      (fun _ => Except.ok 0) 8 ["A"] false).success = true ∧
    (run_for_products (fun _ => none) (fun _ => none) (fun _ => none)
      (fun _ => Except.ok 0) 8 ["A"] false).errors ≠ [] ∧
    (api_to_postgres_run {} c7ncfg (fun r => Except.ok r)
      (Except.ok [c7invalid]) (fun _ => Except.ok (0, 0, [])) true true).success
      = false ∧
    (api_to_postgres_run {} c7ncfg (fun r => Except.ok r)
      (Except.ok [c7invalid]) (fun _ => Except.ok (0, 0, [])) true true).errors
      ≠ [] := by
  refine ⟨rfl, by decide, ?_, ?_⟩ <;> decide

/-- Witness for C7: the amended theorem applied at the concrete no-match
invocation. -/
theorem claim_c7_witness :
    (run_for_products (fun _ => none) (fun _ => none) (fun _ => none)
      (fun _ => Except.ok 0) 8 ["A"] false).success = true ∧
    (run_for_products (fun _ => none) (fun _ => none) (fun _ => none)
      (fun _ => Except.ok 0) 8 ["A"] false).errors ≠ [] :=
  claim_c7_pipeline_success.2 (fun _ => none) (fun _ => none) (fun _ => none)
    (fun _ => Except.ok 0) 8 ["A"] false rfl

end BMS




